import Mathlib

/-!
# agent-os scripts: checklist parsing, stage inference and tracker sync

A shallow embedding of `scripts/detect-state.js`, `scripts/sync-to-tracker.js` and
`scripts/sync-to-notion.js`, and of the relation property that
`scripts/setup-notion-properties.js` adds.

Text is a list of characters.  The regular expressions of the source are kept as
regular expressions: they are values of `Regex`, run by a backtracking matcher that
tries the alternatives in the order ECMAScript does (greedy quantifiers take the
longest run first and give characters back one at a time, lazy ones take the shortest
first, a lookahead is matched once and not re-entered).  `\s`, `\d` and `.` are
the ECMAScript classes, the `i` flag compares characters after `canonicalize`, and the
anchors of the `m` flag hold at the line terminators.  A character outside the Basic
Multilingual Plane is two code units for the source and one `Char` here; none of the
patterns below tells the two apart, since such a character is matched by `.` or
`[\s\S]` only and no length of a piece matched by them is ever taken.
-/

namespace AgentOS

/-! ## Characters and strings -/

/-- Text: a JavaScript string, as its list of characters. -/
abbrev Str := List Char

/-- ECMAScript `LineTerminator`: LF, CR, U+2028, U+2029. -/
def isLineTerminator (c : Char) : Bool :=
  c.toNat == 0x0A || c.toNat == 0x0D || c.toNat == 0x2028 || c.toNat == 0x2029

/-- ECMAScript `\s` (and the characters `String.prototype.trim` strips):
`WhiteSpace` together with `LineTerminator`. -/
def isSpace (c : Char) : Bool :=
  c.toNat == 0x09 || c.toNat == 0x0A || c.toNat == 0x0B || c.toNat == 0x0C ||
  c.toNat == 0x0D || c.toNat == 0x20 || c.toNat == 0xA0 || c.toNat == 0x1680 ||
  (0x2000 ≤ c.toNat && c.toNat ≤ 0x200A) ||
  c.toNat == 0x2028 || c.toNat == 0x2029 || c.toNat == 0x202F ||
  c.toNat == 0x205F || c.toNat == 0x3000 || c.toNat == 0xFEFF

/-- ECMAScript `\d`: the ASCII digits. -/
def isDigit (c : Char) : Bool :=
  0x30 ≤ c.toNat && c.toNat ≤ 0x39

/-- ECMAScript `.` (no `s` flag): anything but a line terminator. -/
def isDot (c : Char) : Bool :=
  !isLineTerminator c

/-- The class `[ x]` of the checkbox. -/
def isBox (c : Char) : Bool :=
  c == ' ' || c == 'x'

/-- JavaScript `String.prototype.trimStart`. -/
def trimStart (s : Str) : Str :=
  s.dropWhile isSpace

/-- JavaScript `String.prototype.trim`. -/
def trim (s : Str) : Str :=
  ((s.dropWhile isSpace).reverse.dropWhile isSpace).reverse

/-- JavaScript `String.prototype.startsWith`. -/
def startsWith (s pat : Str) : Bool :=
  pat.isPrefixOf s

/-- JavaScript `String.prototype.includes`. -/
def includes : Str → Str → Bool
  | [], pat => pat.isPrefixOf []
  | c :: s, pat => pat.isPrefixOf (c :: s) || includes s pat

/-- The piece of `cur` up to the next `'\n'`, and what follows. -/
def splitAux : Str → Str → List Str
  | [], cur => [cur.reverse]
  | c :: s, cur => if c = '\n' then cur.reverse :: splitAux s [] else splitAux s (c :: cur)

/-- JavaScript `content.split('\n')`. -/
def splitLines (content : Str) : List Str :=
  splitAux content []

/-! ## Regular expressions -/

/-- The fragment of ECMAScript regular expressions the scripts use. -/
inductive Regex where
  /-- A literal character. -/
  | lit (c : Char)
  /-- One character of a class. -/
  | cls (p : Char → Bool)
  /-- Greedy `*` over a class. -/
  | star (p : Char → Bool)
  /-- Concatenation. -/
  | seq (a b : Regex)
  /-- Greedy `(?:a)?`. -/
  | opt (a : Regex)
  /-- A capturing group `(a)`. -/
  | grp (a : Regex)
  /-- Anchor `$` without the `m` flag: the end of the input. -/
  | eoi
  /-- The empty pattern. -/
  | eps
  /-- Alternation `a|b`. -/
  | alt (a b : Regex)
  /-- Lazy `*?` over a class. -/
  | lazyStar (p : Char → Bool)
  /-- Lookahead `(?=a)`. -/
  | look (a : Regex)
  /-- Anchor `$` with the `m` flag: the end of the input or of a line. -/
  | eol

/-- Greedy `p*` followed by the continuation `k`: take every character of the class,
then give them back one at a time until `k` succeeds. -/
def starRun {α : Type} (p : Char → Bool) (k : Str → Option α) : Str → Option α
  | [] => k []
  | c :: s =>
    if p c then
      match starRun p k s with
      | some r => some r
      | none => k (c :: s)
    else k (c :: s)

/-- Lazy `p*?` followed by the continuation `k`: try `k` first, and take one more
character of the class each time it fails. -/
def lazyRun {α : Type} (p : Char → Bool) (k : Str → Option α) : Str → Option α
  | [] => k []
  | c :: s =>
    match k (c :: s) with
    | some r => some r
    | none => if p c then lazyRun p k s else none

/-- Backtracking match of a pattern at the head of `s`; `caps` are the groups closed
so far and `k` is what follows the pattern. -/
def Regex.run : Regex → {α : Type} → Str → List Str → (Str → List Str → Option α) → Option α
  | .lit c, _, s, caps, k =>
    match s with
    | d :: s' => if d = c then k s' caps else none
    | [] => none
  | .cls p, _, s, caps, k =>
    match s with
    | d :: s' => if p d then k s' caps else none
    | [] => none
  | .star p, _, s, caps, k => starRun p (fun s' => k s' caps) s
  | .seq a b, _, s, caps, k => a.run s caps (fun s' caps' => b.run s' caps' k)
  | .opt a, _, s, caps, k =>
    match a.run s caps k with
    | some r => some r
    | none => k s caps
  | .grp a, _, s, caps, k =>
    a.run s caps (fun s' caps' => k s' (caps' ++ [s.take (s.length - s'.length)]))
  | .eoi, _, s, caps, k =>
    match s with
    | [] => k [] caps
    | _ :: _ => none
  | .eps, _, s, caps, k => k s caps
  | .alt a b, _, s, caps, k =>
    match a.run s caps k with
    | some r => some r
    | none => b.run s caps k
  | .lazyStar p, _, s, caps, k => lazyRun p (fun s' => k s' caps) s
  | .look a, _, s, caps, k =>
    match a.run s caps (fun _ caps' => some caps') with
    | some caps' => k s caps'
    | none => none
  | .eol, _, s, caps, k =>
    match s with
    | [] => k [] caps
    | c :: s' => if isLineTerminator c then k (c :: s') caps else none

/-- Greedy `+` over a class. -/
def Regex.plus (p : Char → Bool) : Regex :=
  .seq (.cls p) (.star p)

/-- A sequence of patterns. -/
def Regex.cat : List Regex → Regex
  | [] => .eps
  | r :: rs => .seq r (Regex.cat rs)

/-- A literal string. -/
def Regex.str (s : String) : Regex :=
  Regex.cat (s.toList.map Regex.lit)

/-- The match of `r` at the head of `s`: what is left of `s`, and the groups. -/
def Regex.matchAt (r : Regex) (s : Str) : Option (Str × List Str) :=
  r.run s [] (fun s' caps => some (s', caps))

/-- JavaScript `s.match(r)` for a pattern that starts with `^` (no `m` flag): the groups of the
match at index 0, the only index where `^` holds. -/
def Regex.matchStart (r : Regex) (s : Str) : Option (List Str) :=
  (r.matchAt s).map Prod.snd

/-- Whether `s.match(r)` succeeds for a pattern with no anchor: the first index
at which the pattern matches is looked for from left to right. -/
def Regex.test (r : Regex) : Str → Bool
  | [] => (r.matchAt []).isSome
  | c :: s => (r.matchAt (c :: s)).isSome || Regex.test r s

/-- JavaScript `s.replace(r, '')` for a pattern that starts with `^` (no `g` flag): the match at
index 0 is removed, and `s` is returned as it is when there is none. -/
def Regex.removeStart (r : Regex) (s : Str) : Str :=
  match r.matchAt s with
  | some (rest, _) => rest
  | none => s

/-- JavaScript `s.replace(r, '')` for a pattern with no anchor (no `g` flag): the first match,
looked for from left to right, is removed. -/
def Regex.removeFirst (r : Regex) : Str → Str
  | [] =>
    match r.matchAt [] with
    | some (rest, _) => rest
    | none => []
  | c :: s =>
    match r.matchAt (c :: s) with
    | some (rest, _) => rest
    | none => c :: Regex.removeFirst r s

/-- JavaScript `s.match(r)` for a pattern with no anchor (no `g` flag): the groups of the
first match, looked for from left to right. -/
def Regex.search (r : Regex) : Str → Option (List Str)
  | [] => (r.matchAt []).map Prod.snd
  | c :: s =>
    match r.matchAt (c :: s) with
    | some (_, caps) => some caps
    | none => Regex.search r s

/-- JavaScript `s.match(r)` for a pattern that starts with `^` under the `m` flag (no `g`
flag): the groups of the first match that starts at the start of the input or right
after a line terminator; `atLineStart` tells whether the head of the text is such a
place. -/
def Regex.searchLines (r : Regex) : Bool → Str → Option (List Str)
  | atLineStart, [] => if atLineStart then (r.matchAt []).map Prod.snd else none
  | atLineStart, c :: s =>
    match (if atLineStart then r.matchAt (c :: s) else none) with
    | some (_, caps) => some caps
    | none => Regex.searchLines r (isLineTerminator c) s

/-- The `Canonicalize` of the `i` flag (without the `u` flag), on the ASCII letters: a
lower-case letter is taken to its upper case.  A character that is not ASCII is never
taken to an ASCII one by `Canonicalize`, so that, against the ASCII characters the
patterns of the scripts are made of, the comparison below is the one of the source. -/
def canonicalize (c : Char) : Char :=
  if 0x61 ≤ c.toNat ∧ c.toNat ≤ 0x7A then Char.ofNat (c.toNat - 0x20) else c

/-- A literal character under the `i` flag. -/
def Regex.litI (c : Char) : Regex :=
  .cls (fun d => canonicalize d == canonicalize c)

/-- A literal string under the `i` flag. -/
def Regex.strI (s : String) : Regex :=
  Regex.cat (s.toList.map Regex.litI)

/-- The class `[ x]` under the `i` flag. -/
def isBoxI (c : Char) : Bool :=
  canonicalize c == canonicalize ' ' || canonicalize c == canonicalize 'x'

/-- JavaScript `String.prototype.toLowerCase` on the ASCII letters, which is all that the
tests `includes('unit')`, `includes('e2e')` and `includes('integration')` made on its
result depend on: the one other character whose lower case has an ASCII letter of
these words is U+0130, and the `i` it gives is followed by U+0307. -/
def toLowerCase (s : Str) : Str :=
  s.map (fun c => if 0x41 ≤ c.toNat ∧ c.toNat ≤ 0x5A then Char.ofNat (c.toNat + 0x20) else c)

/-- JavaScript `lines.join('\n')`: the document whose lines are `lines`. -/
def joinLines : List Str → Str
  | [] => []
  | [l] => l
  | l :: l' :: ls => l ++ '\n' :: joinLines (l' :: ls)

/-- JavaScript `x || dflt` for a string that may be `null`: `null` and `''` are falsy. -/
def orDefault (dflt : Str) : Option Str → Str
  | none => dflt
  | some [] => dflt
  | some (c :: s) => c :: s

/-! ## detect-state.js -/

namespace DetectState

/-- Pattern `/^###\s*/`, without its `^`. -/
def reH3 : Regex :=
  .cat [.str "###", .star isSpace]

/-- Pattern `/^####\s*/`, without its `^`. -/
def reH4 : Regex :=
  .cat [.str "####", .star isSpace]

/-- Pattern `/####\s*Task Group \d+:/`. -/
def reTaskGroup : Regex :=
  .cat [.str "####", .star isSpace, .str "Task Group ", .plus isDigit, .lit ':']

/-- Pattern `/^(\s*)- \[([ x])\]\s*(\d+\.\d+)\s+(.+)$/`, without its `^`. -/
def reTask : Regex :=
  .cat [.grp (.star isSpace), .str "- [", .grp (.cls isBox), .lit ']', .star isSpace,
    .grp (.cat [.plus isDigit, .lit '.', .plus isDigit]), .plus isSpace,
    .grp (.plus isDot), .eoi]

/-- A task of `detect-state.js`. -/
structure Task where
  id : Str
  description : Str
  completed : Bool
  group : Str
  indent : Nat
  deriving DecidableEq, Repr

/-- The variables of the loop of `parseTasks`. -/
structure ParseState where
  tasks : List Task
  currentGroup : Option Str
  deriving DecidableEq, Repr

/-- The two header tests of the loop body, in the order of the source: the value of
`currentGroup` after `line`. -/
def nextGroup (currentGroup : Option Str) (line : Str) : Option Str :=
  let g1 :=
    if startsWith line "###".toList && !includes line "Task Group".toList then
      some (trim (reH3.removeStart line))
    else currentGroup
  if reTaskGroup.test line then some (trim (reH4.removeStart line)) else g1

/-- The task pushed for `line` when `taskMatch` is not null. -/
def taskOfLine (currentGroup : Option Str) (line : Str) : Option Task :=
  match reTask.matchStart line with
  | some [indent, checked, taskId, description] =>
    some {
      id := taskId
      description := trim description
      completed := checked == ['x']
      group := orDefault "Ungrouped".toList currentGroup
      indent := indent.length }
  | _ => none

/-- One turn of the loop of `parseTasks`. -/
def parseStep (st : ParseState) (line : Str) : ParseState :=
  let g := nextGroup st.currentGroup line
  match taskOfLine g line with
  | some t => { tasks := st.tasks ++ [t], currentGroup := g }
  | none => { tasks := st.tasks, currentGroup := g }

/-- The loop of `parseTasks` over `lines`, from the state `st`. -/
def parseLines (st : ParseState) (lines : List Str) : ParseState :=
  lines.foldl parseStep st

/-- Function `parseTasks(tasksContent)`. -/
def parseTasks (tasksContent : Str) : List Task :=
  (parseLines { tasks := [], currentGroup := none } (splitLines tasksContent)).tasks

/-- What `detectState` reads of the spec folder: the four `fs.existsSync` answers and
the content of `tasks.md` (read only when it exists). -/
structure SpecFolder where
  hasRawIdea : Bool
  hasRequirements : Bool
  hasSpec : Bool
  hasTasks : Bool
  tasksContent : Str

/-- The object `detectState` returns, without `specPath` and `specName`, which it
copies from its argument. -/
structure State where
  nextAgent : Option Str
  nextTask : Option Task
  projectStatus : Option Str
  summary : Str
  deriving DecidableEq, Repr

/-- Function `detectState(specPath)`. -/
def detectState (f : SpecFolder) : State :=
  let state : State := { nextAgent := none, nextTask := none, projectStatus := none, summary := [] }
  if !f.hasRawIdea then
    { state with
      nextAgent := some "spec-initializer".toList
      projectStatus := some "Not Started".toList
      summary := "Need to initialize spec folder".toList }
  else if !f.hasRequirements then
    { state with
      nextAgent := some "spec-shaper".toList
      projectStatus := some "Planning".toList
      summary := "Need to gather requirements".toList }
  else if !f.hasSpec then
    { state with
      nextAgent := some "spec-writer".toList
      projectStatus := some "Planning".toList
      summary := "Need to write specification".toList }
  else if !f.hasTasks then
    { state with
      nextAgent := some "tasks-list-creator".toList
      projectStatus := some "Planning".toList
      summary := "Need to create tasks list".toList }
  else
    let tasks := parseTasks f.tasksContent
    let incompleteTasks := tasks.filter (fun t => !t.completed)
    match incompleteTasks with
    | [] =>
      { state with
        nextAgent := some "complete".toList
        projectStatus := some "Done".toList
        summary := "All tasks completed!".toList }
    | t :: _ =>
      { state with
        nextAgent := some "implementer".toList
        nextTask := some t
        projectStatus := some "In Progress".toList
        summary := "Next task: ".toList ++ t.id ++ " - ".toList ++ t.description }

end DetectState

/-! ## sync-to-tracker.js -/

namespace Tracker

/-- Pattern `/^###\s+/`, without its `^`. -/
def reH3 : Regex :=
  .cat [.str "###", .plus isSpace]

/-- Pattern `/^####\s*Task Group/`, without its `^`. -/
def reH4 : Regex :=
  .cat [.str "####", .star isSpace, .str "Task Group"]

/-- Pattern `/^#+\s*/`, without its `^`. -/
def reHashes : Regex :=
  .cat [.plus (fun c => c == '#'), .star isSpace]

/-- Pattern `/Task Group \d+:\s*/`. -/
def reGroupLabel : Regex :=
  .cat [.str "Task Group ", .plus isDigit, .lit ':', .star isSpace]

/-- Pattern `/^(\s*)- \[([ x])\]\s*(\d+(?:\.\d+)?)\s+(.+)$/`, without its `^`. -/
def reTask : Regex :=
  .cat [.grp (.star isSpace), .str "- [", .grp (.cls isBox), .lit ']', .star isSpace,
    .grp (.cat [.plus isDigit, .opt (.cat [.lit '.', .plus isDigit])]), .plus isSpace,
    .grp (.plus isDot), .eoi]

/-- A task of `sync-to-tracker.js`. -/
structure Task where
  external_id : Str
  title : Str
  description : Str
  status : Str
  priority : Str
  story_points : Nat
  order : Nat
  group : Option Str
  deriving DecidableEq, Repr

/-- The variables of the loop of `parseTasks`. -/
structure ParseState where
  tasks : List Task
  currentGroup : Option Str
  order : Nat
  deriving DecidableEq, Repr

/-- The header test of the loop body: the value of `currentGroup` after `line`. -/
def nextGroup (currentGroup : Option Str) (line : Str) : Option Str :=
  if (reH3.matchAt line).isSome || (reH4.matchAt line).isSome then
    some (trim (reGroupLabel.removeFirst (reHashes.removeStart line)))
  else currentGroup

/-- One turn of the loop of `parseTasks`. -/
def parseStep (st : ParseState) (line : Str) : ParseState :=
  let g := nextGroup st.currentGroup line
  match reTask.matchStart line with
  | some [_indent, checked, taskId, description] =>
    let order := st.order + 1
    { tasks := st.tasks ++ [{
        external_id := taskId
        title := trim description
        description := "Task ".toList ++ taskId ++ " from ".toList ++
          orDefault "Ungrouped".toList g
        status := if checked == ['x'] then "done".toList else "todo".toList
        priority := "medium".toList
        story_points := 1
        order := order
        group := g }]
      currentGroup := g
      order := order }
  | _ => { tasks := st.tasks, currentGroup := g, order := st.order }

/-- The loop of `parseTasks` over `lines`, from the state `st`. -/
def parseLines (st : ParseState) (lines : List Str) : ParseState :=
  lines.foldl parseStep st

/-- Function `parseTasks(specPath)`; `tasksFile` is the content of `tasks.md`, `none` when the
file does not exist. -/
def parseTasks (tasksFile : Option Str) : List Task :=
  match tasksFile with
  | none => []
  | some content =>
    (parseLines { tasks := [], currentGroup := none, order := 0 } (splitLines content)).tasks

/-- The phase `syncFeature` computes from `fs.existsSync` of `spec.md`, `tasks.md` and
`test-plan.md`. -/
def featurePhase (hasSpec hasTasks hasTestPlan : Bool) : Str :=
  let phase := "raw-idea".toList
  let phase := if hasSpec then "spec".toList else phase
  let phase := if hasTasks then "development".toList else phase
  let phase := if hasTestPlan then "testing".toList else phase
  phase

/-- What `extractSpecMetadata` returns. -/
structure Metadata where
  title : Str
  description : Str
  externalId : Str
  deriving DecidableEq, Repr

/-- The body `syncFeature` posts to `/api/agent-os/features`. -/
structure FeaturePayload where
  external_id : Str
  project_id : Str
  title : Str
  description : Str
  phase : Str
  deriving DecidableEq, Repr

/-- The request of `syncFeature(specPath, projectId)`: none when `projectId` is falsy,
else the body posted; `metadata` is `extractSpecMetadata(specPath)`. -/
def syncFeatureRequest (projectId : Option Str) (metadata : Metadata)
    (hasSpec hasTasks hasTestPlan : Bool) : Option FeaturePayload :=
  match projectId with
  | none => none
  | some [] => none
  | some (c :: s) =>
    some {
      external_id := metadata.externalId
      project_id := c :: s
      title := metadata.title
      description := metadata.description
      phase := featurePhase hasSpec hasTasks hasTestPlan }

/-- What the transport gives back for one request. -/
inductive HttpResult where
  /-- A response arrived, with its status code; `bodyIsJson` tells whether
  `JSON.parse(data)` succeeds. -/
  | response (statusCode : Nat) (bodyIsJson : Bool)
  /-- The request emitted `'error'`. -/
  | requestError
  deriving DecidableEq, Repr

/-- The value a `trackerRequest` promise resolves to. -/
structure Result where
  success : Bool
  status : Nat
  deriving DecidableEq, Repr

/-- Function `trackerRequest`: the promise resolves (`some`) for a response whose body parses,
with `success` set for a 2xx status, and rejects (`none`) for a body that does not
parse and for a request error. -/
def trackerRequest (h : HttpResult) : Option Result :=
  match h with
  | .response statusCode true =>
    if 200 ≤ statusCode ∧ statusCode < 300 then
      some { success := true, status := statusCode }
    else some { success := false, status := statusCode }
  | .response _ false => none
  | .requestError => none

/-- The body `syncTasks` posts to `/api/agent-os/tasks`. -/
structure TaskPayload where
  external_id : Str
  title : Str
  description : Str
  status : Str
  priority : Str
  story_points : Nat
  order : Nat
  sprint_id : Option Str
  deriving DecidableEq, Repr

/-- The payload of one task; `specName` is `path.basename(specPath)`. -/
def taskPayload (specName : Str) (sprintId : Option Str) (task : Task) : TaskPayload :=
  { external_id := specName ++ "-".toList ++ task.external_id
    title := task.title
    description := task.description
    status := task.status
    priority := task.priority
    story_points := task.story_points
    order := task.order
    sprint_id :=
      match sprintId with
      | none => none
      | some [] => none
      | some (c :: s) => some (c :: s) }

/-- How a batch ends. -/
inductive BatchEnd where
  /-- The list is empty: the function returns before its loop. -/
  | nothing
  /-- The loop ran to its end, with these counters. -/
  | counted (synced failed : Nat)
  /-- An `await` threw: the function's promise rejects. -/
  | threw
  deriving DecidableEq, Repr

/-- A batch, as seen from outside: how it ended and the bodies posted, in order. -/
structure Batch (β : Type) where
  result : BatchEnd
  sent : List β

/-- The loop of `syncTasks` and of `syncTests`: one awaited request per item.  The
remote is `remote`, which gives the transport's answer to the request with a given
number (requests are numbered from 0 in the order they are sent); `sent` are the
bodies posted so far. -/
def syncLoop {α β : Type} (payload : α → β) (remote : Nat → HttpResult) :
    List α → Nat → Nat → List β → Batch β
  | [], synced, failed, sent => { result := .counted synced failed, sent := sent }
  | item :: items, synced, failed, sent =>
    match trackerRequest (remote sent.length) with
    | none => { result := .threw, sent := sent ++ [payload item] }
    | some result =>
      if result.success then
        syncLoop payload remote items (synced + 1) failed (sent ++ [payload item])
      else
        syncLoop payload remote items synced (failed + 1) (sent ++ [payload item])

/-- Function `syncTasks(specPath, sprintId)` once `tasks = parseTasks(specPath)` is known. -/
def syncTaskList (specName : Str) (sprintId : Option Str) (remote : Nat → HttpResult)
    (tasks : List Task) : Batch TaskPayload :=
  match tasks with
  | [] => { result := .nothing, sent := [] }
  | _ :: _ => syncLoop (taskPayload specName sprintId) remote tasks 0 0 []

/-- Function `syncTasks(specPath, sprintId)`. -/
def syncTasks (specName : Str) (tasksFile : Option Str) (sprintId : Option Str)
    (remote : Nat → HttpResult) : Batch TaskPayload :=
  syncTaskList specName sprintId remote (parseTasks tasksFile)

/-- A test of `sync-to-tracker.js`. -/
structure Test where
  external_id : Str
  title : Str
  description : Str
  status : Str
  test_type : Str
  deriving DecidableEq, Repr

/-- The body `syncTests` posts to `/api/agent-os/tests`. -/
structure TestPayload where
  external_id : Str
  title : Str
  description : Str
  status : Str
  test_type : Str
  feature_id : Option Str
  deriving DecidableEq, Repr

/-- The payload of one test. -/
def testPayload (specName : Str) (featureId : Option Str) (test : Test) : TestPayload :=
  { external_id := specName ++ "-".toList ++ test.external_id
    title := test.title
    description := test.description
    status := test.status
    test_type := test.test_type
    feature_id :=
      match featureId with
      | none => none
      | some [] => none
      | some (c :: s) => some (c :: s) }

/-- Function `syncTests(specPath, featureId)` once `tests = parseTests(specPath)` is known. -/
def syncTestList (specName : Str) (featureId : Option Str) (remote : Nat → HttpResult)
    (tests : List Test) : Batch TestPayload :=
  match tests with
  | [] => { result := .nothing, sent := [] }
  | _ :: _ => syncLoop (testPayload specName featureId) remote tests 0 0 []

/-- Whether the answer of the transport is a response with a 2xx status. -/
def HttpResult.is2xx : HttpResult → Bool
  | .response statusCode _ => decide (200 ≤ statusCode ∧ statusCode < 300)
  | .requestError => false

/-- Whether the answer of the transport is a response with a status that is not 2xx. -/
def HttpResult.isNon2xx : HttpResult → Bool
  | .response statusCode _ => !decide (200 ≤ statusCode ∧ statusCode < 300)
  | .requestError => false

/-- The answers of the remote to the `n` requests numbered from `start`. -/
def answers (remote : Nat → HttpResult) (start n : Nat) : List HttpResult :=
  (List.range' start n).map remote

/-- Pattern `/^#\s+(.+)$/m`, without its `^`. -/
def reTitle : Regex :=
  .cat [.lit '#', .plus isSpace, .grp (.plus isDot), .eol]

/-- Pattern `/##\s*Overview\s*\n+([\s\S]*?)(?=\n##|$)/i`. -/
def reOverview : Regex :=
  .cat [.strI "##", .star isSpace, .strI "Overview", .star isSpace,
    .plus (fun c => c == '\n'), .grp (.lazyStar (fun _ => true)),
    .look (.alt (.strI "\n##") .eoi)]

/-- Function `extractSpecMetadata(specPath)`; `specName` is `path.basename(specPath)`, and
`specFile` and `rawIdeaFile` are the contents of `spec.md` and `raw-idea.md`, none when
the file does not exist. -/
def extractSpecMetadata (specName : Str) (specFile rawIdeaFile : Option Str) : Metadata :=
  let title := specName
  let description : Str := []
  let (title, description) :=
    match specFile with
    | some content =>
      let title :=
        match reTitle.searchLines true content with
        | some [t] => trim t
        | _ => title
      let description :=
        match reOverview.search content with
        | some [body] => (splitLines (trim body)).headD []
        | _ => description
      (title, description)
    | none => (title, description)
  let description :=
    match description with
    | [] =>
      match rawIdeaFile with
      | some content =>
        orDefault [] ((splitLines content).find? (fun line => decide ((trim line).length > 0)))
      | none => description
    | c :: d => c :: d
  { title := title, description := description, externalId := specName }

/-- Pattern `/^##\s+/`, without its `^`. -/
def reSection : Regex :=
  .cat [.str "##", .plus isSpace]

/-- Pattern `/^##\s*/`, without its `^`. -/
def reSectionMark : Regex :=
  .cat [.str "##", .star isSpace]

/-- Pattern `/^-\s*\[([ x])\]\s*(TEST-\d+|TC-\d+|\d+\.\d+):\s*(.+)$/i`, without its `^`. -/
def reTest : Regex :=
  .cat [.litI '-', .star isSpace, .litI '[', .grp (.cls isBoxI), .litI ']', .star isSpace,
    .grp (.alt (.cat [.strI "TEST-", .plus isDigit])
      (.alt (.cat [.strI "TC-", .plus isDigit])
        (.cat [.plus isDigit, .litI '.', .plus isDigit]))),
    .litI ':', .star isSpace, .grp (.plus isDot), .eoi]

/-- The variables of the loop of `parseTests`. -/
structure TestParseState where
  tests : List Test
  currentSection : Option Str
  order : Nat
  deriving DecidableEq, Repr

/-- The type of a test, from the section it stands in: `currentSection?.toLowerCase()`
is searched for `unit`, then `e2e`, then `integration`. -/
def testType (currentSection : Option Str) : Str :=
  match currentSection with
  | none => "manual".toList
  | some title =>
    if includes (toLowerCase title) "unit".toList then "unit".toList
    else if includes (toLowerCase title) "e2e".toList then "e2e".toList
    else if includes (toLowerCase title) "integration".toList then "integration".toList
    else "manual".toList

/-- One turn of the loop of `parseTests`. -/
def parseTestStep (st : TestParseState) (line : Str) : TestParseState :=
  let currentSection :=
    if (reSection.matchAt line).isSome then some (trim (reSectionMark.removeStart line))
    else st.currentSection
  match reTest.matchStart line with
  | some [checked, testId, description] =>
    { tests := st.tests ++ [{
        external_id := testId
        title := trim description
        description := "Test from ".toList ++ orDefault "General".toList currentSection
        status := if checked == ['x'] then "passed".toList else "pending".toList
        test_type := testType currentSection }]
      currentSection := currentSection
      order := st.order + 1 }
  | _ => { tests := st.tests, currentSection := currentSection, order := st.order }

/-- Function `parseTests(specPath)`; `testPlanFile` is the content of `test-plan.md`, none
when the file does not exist. -/
def parseTests (testPlanFile : Option Str) : List Test :=
  match testPlanFile with
  | none => []
  | some content =>
    ((splitLines content).foldl parseTestStep
      { tests := [], currentSection := none, order := 0 }).tests

/-- Function `syncTests(specPath, featureId)`. -/
def syncTests (specName : Str) (testPlanFile : Option Str) (featureId : Option Str)
    (remote : Nat → HttpResult) : Batch TestPayload :=
  syncTestList specName featureId remote (parseTests testPlanFile)

end Tracker

/-! ## sync-to-notion.js -/

namespace Notion

/-- A task, as `parseTasks` of `sync-to-notion.js` makes it. -/
structure Task where
  id : Str
  description : Str
  completed : Bool
  group : Str
  indent : Nat
  deriving DecidableEq, Repr

/-- A relation property of a page: `relation` is the list of the ids of the related pages,
none when the property has no `relation` field. -/
structure RelationProperty where
  relation : Option (List Str)
  deriving DecidableEq, Repr

/-- The properties of a page of the tasks database: `Name`, `Project`, `🎯 Projects`,
`Task ID`, `Status`, `Task Group`, each none when the page does not have it. -/
structure Properties where
  name : Option Str
  project : Option RelationProperty
  projects : Option RelationProperty
  taskId : Option Str
  status : Option Str
  taskGroup : Option Str
  deriving DecidableEq, Repr

/-- A page the remote gives back. -/
structure Page where
  id : Nat
  properties : Properties
  deriving DecidableEq, Repr

/-- The tasks database of the remote store: its records, in the order the store lists
them; the id of a record is its place in the list.  A create adds the record written at
the end; an update replaces the properties of the record with the given id. -/
abbrev Store := List Properties

/-- A write sent to the remote store. -/
inductive Call where
  /-- Request `PATCH /v1/pages/<id>`: an update. -/
  | patch (id : Nat) (properties : Properties)
  /-- Request `POST /v1/pages`: a create. -/
  | post (properties : Properties)
  deriving DecidableEq, Repr

/-- The answer of the store to the query of `findNotionTask`: the pages whose `Task ID`
equals `taskId`; `first` is the id of the first record of `store`. -/
def queryFrom (taskId : Str) : Nat → Store → List Page
  | _, [] => []
  | first, properties :: store =>
    if properties.taskId = some taskId then
      { id := first, properties := properties } :: queryFrom taskId (first + 1) store
    else queryFrom taskId (first + 1) store

/-- The test of the `filter` of `findNotionTask`: the relation of `Project`, or that of
`🎯 Projects` when the first is undefined, has `projectId` among its ids. -/
def relatedTo (projectId : Str) (properties : Properties) : Bool :=
  let projectRelation :=
    match properties.project.bind (fun r => r.relation) with
    | some relation => some relation
    | none => properties.projects.bind (fun r => r.relation)
  match projectRelation with
  | some relation => relation.any (fun id => id == projectId)
  | none => false

/-- What comes back of the query `findNotionTask` sends. -/
inductive QueryReply where
  /-- The request fails or its answer does not parse: `notionRequest` rejects. -/
  | rejected
  /-- An answer without `results` (an error object of the remote). -/
  | noResults
  /-- An answer whose `results` are the records of the store with the Task ID asked. -/
  | results
  deriving DecidableEq, Repr

/-- Function `findNotionTask(projectId, taskId)`: null when the request rejects (the
`catch`) or the answer has no `results`, else the first of the results that is related
to the project, or null when there is none. -/
def findNotionTask (projectId taskId : Str) (store : Store) (reply : QueryReply) :
    Option Page :=
  match reply with
  | .rejected => none
  | .noResults => none
  | .results =>
    let results := queryFrom taskId 0 store
    let filtered := results.filter (fun task => relatedTo projectId task.properties)
    filtered.head?

/-- The properties `upsertNotionTasks` writes for `task`. -/
def taskProperties (projectId : Str) (existingTask : Option Page) (task : Task) : Properties :=
  let useProject : Bool :=
    match existingTask with
    | some page => page.properties.project.isSome
    | none => false
  { name := some (task.id ++ " ".toList ++ task.description)
    project := if useProject then some { relation := some [projectId] } else none
    projects := if useProject then none else some { relation := some [projectId] }
    taskId := some task.id
    status := some (if task.completed then "Done".toList else "Todo".toList)
    taskGroup := some task.group }

/-- The store, the writes sent to it and the number of queries sent to it. -/
structure World where
  store : Store
  calls : List Call
  queries : Nat
  deriving DecidableEq, Repr

/-- One turn of the loop of `upsertNotionTasks`; `reply` tells what comes back of the
query with a given number (the queries are numbered from 0 in the order they are
sent). -/
def upsertStep (projectId : Str) (reply : Nat → QueryReply) (w : World) (task : Task) :
    World :=
  let existingTask := findNotionTask projectId task.id w.store (reply w.queries)
  let properties := taskProperties projectId existingTask task
  match existingTask with
  | some page =>
    { store := w.store.set page.id properties
      calls := w.calls ++ [.patch page.id properties]
      queries := w.queries + 1 }
  | none =>
    { store := w.store ++ [properties]
      calls := w.calls ++ [.post properties]
      queries := w.queries + 1 }

/-- Function `upsertNotionTasks(projectId, tasks)` on the store `store`, whose writes
succeed: the store it leaves and the writes it sent. -/
def upsertNotionTasks (projectId : Str) (tasks : List Task) (store : Store)
    (reply : Nat → QueryReply) : World :=
  tasks.foldl (upsertStep projectId reply) { store := store, calls := [], queries := 0 }

/-- Whether a write is an update. -/
def Call.isPatch : Call → Bool
  | .patch _ _ => true
  | .post _ => false

/-- The number of records of `store` with the Task ID `taskId` that are related to
`projectId`. -/
def recordCount (projectId taskId : Str) (store : Store) : Nat :=
  store.countP (fun properties =>
    decide (properties.taskId = some taskId) && relatedTo projectId properties)

/-- Pattern `/^###\s*/`, without its `^`. -/
def reH3 : Regex :=
  .cat [.str "###", .star isSpace]

/-- Pattern `/^####\s*/`, without its `^`. -/
def reH4 : Regex :=
  .cat [.str "####", .star isSpace]

/-- Pattern `/####\s*Task Group \d+:/`. -/
def reTaskGroup : Regex :=
  .cat [.str "####", .star isSpace, .str "Task Group ", .plus isDigit, .lit ':']

/-- Pattern `/^(\s*)- \[([ x])\]\s*(\d+\.\d+)\s+(.+)$/`, without its `^`. -/
def reTask : Regex :=
  .cat [.grp (.star isSpace), .str "- [", .grp (.cls isBox), .lit ']', .star isSpace,
    .grp (.cat [.plus isDigit, .lit '.', .plus isDigit]), .plus isSpace,
    .grp (.plus isDot), .eoi]

/-- The variables of the loop of `parseTasks`. -/
structure ParseState where
  tasks : List Task
  currentGroup : Option Str
  deriving DecidableEq, Repr

/-- The two header tests of the loop body of `parseTasks`, in the order of the source. -/
def nextGroup (currentGroup : Option Str) (line : Str) : Option Str :=
  let g1 :=
    if startsWith line "###".toList && !includes line "Task Group".toList then
      some (trim (reH3.removeStart line))
    else currentGroup
  if reTaskGroup.test line then some (trim (reH4.removeStart line)) else g1

/-- One turn of the loop of `parseTasks`. -/
def parseStep (st : ParseState) (line : Str) : ParseState :=
  let g := nextGroup st.currentGroup line
  match reTask.matchStart line with
  | some [indent, checked, taskId, description] =>
    { tasks := st.tasks ++ [{
        id := taskId
        description := trim description
        completed := checked == ['x']
        group := orDefault "Ungrouped".toList g
        indent := indent.length }]
      currentGroup := g }
  | _ => { tasks := st.tasks, currentGroup := g }

/-- Function `parseTasks(tasksContent)` of `sync-to-notion.js`. -/
def parseTasks (tasksContent : Str) : List Task :=
  ((splitLines tasksContent).foldl parseStep { tasks := [], currentGroup := none }).tasks

/-- The object `detectState` of `sync-to-notion.js` returns, without `specPath` and
`specName`, which it copies from its argument. -/
structure State where
  rawIdea : Bool
  requirements : Bool
  spec : Bool
  tasksFile : Bool
  currentAgent : Option Str
  projectStatus : Option Str
  tasks : List Task
  deriving DecidableEq, Repr

/-- Function `detectState(specPath)` of `sync-to-notion.js`, on what it reads of the spec
folder. -/
def detectState (f : DetectState.SpecFolder) : State :=
  let state : State :=
    { rawIdea := f.hasRawIdea, requirements := f.hasRequirements, spec := f.hasSpec,
      tasksFile := f.hasTasks, currentAgent := none, projectStatus := none, tasks := [] }
  if !state.rawIdea then
    { state with
      currentAgent := some "spec-initializer".toList
      projectStatus := some "Not Started".toList }
  else if !state.requirements then
    { state with
      currentAgent := some "spec-shaper".toList
      projectStatus := some "Planning".toList }
  else if !state.spec then
    { state with
      currentAgent := some "spec-writer".toList
      projectStatus := some "Planning".toList }
  else if !state.tasksFile then
    { state with
      currentAgent := some "tasks-list-creator".toList
      projectStatus := some "Planning".toList }
  else
    let tasks := parseTasks f.tasksContent
    let allDone := tasks.all (fun t => t.completed)
    { state with
      currentAgent := some "implementer".toList
      projectStatus := if allDone then some "Done".toList else some "In Progress".toList
      tasks := tasks }

/-- The relation properties of the tasks database after `main` of
`setup-notion-properties.js`: `Project` is added when the database has neither `Project`
nor `🎯 Projects`, and nothing is removed.  The pair tells whether the database then has
`Project` and whether it has `🎯 Projects`. -/
def setupRelationProperties (hasProject hasProjects : Bool) : Bool × Bool :=
  let hasProjectRelation := hasProject || hasProjects
  if !hasProjectRelation then (true, hasProjects) else (hasProject, hasProjects)

end Notion

/-! ## Tasks documents whose `#` are in headers only -/

/-- A line of a tasks document in which `#` is found in headers only. -/
inductive DocLine where
  /-- The level-3 header `### text`. -/
  | h3 (text : Str)
  /-- The level-4 header `#### Task Group N: text`. -/
  | h4 (n text : Str)
  /-- A line without `#`. -/
  | plain (line : Str)
  deriving DecidableEq, Repr

/-- The line as it stands in the document. -/
def DocLine.render : DocLine → Str
  | .h3 text => "### ".toList ++ text
  | .h4 n text => "#### Task Group ".toList ++ n ++ ": ".toList ++ text
  | .plain line => line

/-- The conditions on the three kinds of line: the text of a level-3 header does not
contain `Task Group`, the `N` of a level-4 header is a number, a plain line has no `#`, and
none holds a `'\n'`. -/
def DocLine.wf : DocLine → Bool
  | .h3 text => !includes text "Task Group".toList && text.all (fun x => x != '\n')
  | .h4 n text => !n.isEmpty && n.all isDigit && text.all (fun x => x != '\n')
  | .plain line => line.all (fun x => x != '#' && x != '\n')

/-- The text of a header line: for `### H` the trimmed `H`, for `#### Task Group N: T`
the string `Task Group N: T` (without the blanks that may end it). -/
def DocLine.headerText : DocLine → Option Str
  | .h3 text => some (trim text)
  | .h4 n text => some (trim ("Task Group ".toList ++ n ++ ": ".toList ++ text))
  | .plain _ => none

/-- The text of a header line, with `Ungrouped` for a header whose text is blank. -/
def DocLine.headerTextOrUngrouped (d : DocLine) : Option Str :=
  d.headerText.map (fun t => orDefault "Ungrouped".toList (some t))

/-- The groups of the tasks of a document, one for each line that `parseTasks` of
`detect-state.js` makes a task of, when the group of a task is what `label` gives for the
nearest header line before it, and `current` when there is none. -/
def groupsBy (label : DocLine → Option Str) (current : Str) : List DocLine → List Str
  | [] => []
  | d :: ds =>
    match label d with
    | some t => groupsBy label t ds
    | none =>
      if (DetectState.taskOfLine none d.render).isSome then
        current :: groupsBy label current ds
      else groupsBy label current ds

/-! ## What the two task patterns keep of a line -/

/-- What `parseTasks` of `detect-state.js` keeps of a line that its task pattern matches:
the id, the trimmed description and the completion. -/
def DetectState.lineFields (line : Str) : Option (Str × Str × Bool) :=
  match DetectState.reTask.matchStart line with
  | some [_, checked, taskId, description] =>
    some (taskId, trim description, checked == ['x'])
  | _ => none

/-- What `parseTasks` of `sync-to-tracker.js` keeps of a line that its task pattern
matches: the id, the trimmed title and whether the status is `done`. -/
def Tracker.lineFields (line : Str) : Option (Str × Str × Bool) :=
  match Tracker.reTask.matchStart line with
  | some [_, checked, taskId, description] =>
    some (taskId, trim description, checked == ['x'])
  | _ => none

/-! ## Theorems -/

/-! ### The matcher -/

theorem starRun_reject {α : Type} (p : Char → Bool) (k : Str → Option α)
    (hk : ∀ c s, p c = true → k (c :: s) = none) (s : Str) :
    starRun p k s = k (s.dropWhile p) := by
  induction s with
  | nil => rfl
  | cons c s ih =>
    by_cases hc : p c = true
    · simp only [starRun, hc, if_true, List.dropWhile, ih]
      cases h : k (List.dropWhile p s) with
      | none => simp [hk c s hc]
      | some r => rfl
    · simp [starRun, hc, List.dropWhile]

theorem starRun_greedy {α : Type} (p : Char → Bool) (k : Str → Option α) (s : Str)
    (h : (k (s.dropWhile p)).isSome = true) :
    starRun p k s = k (s.dropWhile p) := by
  induction s with
  | nil => rfl
  | cons c s ih =>
    by_cases hc : p c = true
    · simp only [List.dropWhile, hc] at h
      simp only [starRun, hc, if_true, List.dropWhile, ih h]
      cases h' : k (List.dropWhile p s) with
      | none => simp [h'] at h
      | some r => rfl
    · simp [starRun, hc, List.dropWhile]

theorem dropWhile_append_of_all {p : Char → Bool} (m r : Str) (hm : ∀ x ∈ m, p x = true) :
    (m ++ r).dropWhile p = r.dropWhile p := by
  induction m with
  | nil => rfl
  | cons c m ih =>
    have hc : p c = true := hm c (List.mem_cons_self c m)
    simp only [List.cons_append, List.dropWhile, hc]
    exact ih (fun x hx => hm x (List.mem_cons_of_mem c hx))

theorem take_length_sub (m r : Str) : (m ++ r).take ((m ++ r).length - r.length) = m := by
  simp

theorem splitAux_append (l s cur : Str) (hl : ∀ x ∈ l, x ≠ '\n') :
    splitAux (l ++ s) cur = splitAux s (l.reverse ++ cur) := by
  induction l generalizing cur with
  | nil => rfl
  | cons c l ih =>
    have hc : c ≠ '\n' := hl c (List.mem_cons_self c l)
    simp only [List.cons_append, splitAux, hc, if_false, List.reverse_cons, List.append_assoc,
      List.singleton_append]
    exact ih (c :: cur) (fun x hx => hl x (List.mem_cons_of_mem c hx))

theorem splitLines_line (l : Str) (hl : ∀ x ∈ l, x ≠ '\n') : splitLines l = [l] := by
  have h := splitAux_append l [] [] hl
  simp only [List.append_nil] at h
  simp [splitLines, h, splitAux]

theorem splitLines_cons (l s : Str) (hl : ∀ x ∈ l, x ≠ '\n') :
    splitLines (l ++ '\n' :: s) = l :: splitLines s := by
  have h := splitAux_append l ('\n' :: s) [] hl
  simp only [List.append_nil] at h
  simp [splitLines, h, splitAux]

theorem splitLines_joinLines (l : Str) (ls : List Str) (h : ∀ m ∈ l :: ls, ∀ x ∈ m, x ≠ '\n') :
    splitLines (joinLines (l :: ls)) = l :: ls := by
  induction ls generalizing l with
  | nil => exact splitLines_line l (h l (List.mem_cons_self l []))
  | cons l' ls ih =>
    simp only [joinLines]
    rw [splitLines_cons l _ (h l (List.mem_cons_self l _))]
    rw [ih l' (fun m hm => h m (List.mem_cons_of_mem l hm))]

theorem splitLines_joinLines_ne (ls : List Str) (hne : ls ≠ [])
    (h : ∀ m ∈ ls, ∀ x ∈ m, x ≠ '\n') : splitLines (joinLines ls) = ls := by
  cases ls with
  | nil => exact absurd rfl hne
  | cons l ls => exact splitLines_joinLines l ls h

theorem detect_parseLines_tasks (ls : List Str) (acc : List DetectState.Task)
    (g : Option Str) :
    (DetectState.parseLines { tasks := acc, currentGroup := g } ls).tasks =
      acc ++ (DetectState.parseLines { tasks := [], currentGroup := g } ls).tasks := by
  induction ls generalizing acc g with
  | nil => simp [DetectState.parseLines]
  | cons l ls ih =>
    simp only [DetectState.parseLines, List.foldl_cons, DetectState.parseStep] at ih ⊢
    cases DetectState.taskOfLine (DetectState.nextGroup g l) l with
    | none => exact ih acc _
    | some t =>
      simp only [List.nil_append]
      rw [ih (acc ++ [t]), ih [t]]
      simp

theorem detect_parseLines_group (ls : List Str) (acc : List DetectState.Task)
    (g : Option Str) :
    (DetectState.parseLines { tasks := acc, currentGroup := g } ls).currentGroup =
      (DetectState.parseLines { tasks := [], currentGroup := g } ls).currentGroup := by
  induction ls generalizing acc g with
  | nil => simp [DetectState.parseLines]
  | cons l ls ih =>
    simp only [DetectState.parseLines, List.foldl_cons, DetectState.parseStep] at ih ⊢
    cases DetectState.taskOfLine (DetectState.nextGroup g l) l with
    | none => exact ih acc _
    | some t =>
      simp only [List.nil_append]
      rw [ih (acc ++ [t]), ih [t]]

theorem detect_parseLines_append (st : DetectState.ParseState) (ls ms : List Str) :
    DetectState.parseLines st (ls ++ ms) =
      DetectState.parseLines (DetectState.parseLines st ls) ms := by
  simp [DetectState.parseLines, List.foldl_append]

theorem detect_parseTasks_joinLines (ls : List Str) (h : ∀ m ∈ ls, ∀ x ∈ m, x ≠ '\n') :
    DetectState.parseTasks (joinLines ls) =
      (DetectState.parseLines { tasks := [], currentGroup := none } ls).tasks := by
  cases ls with
  | nil => decide
  | cons l ls =>
    simp only [DetectState.parseTasks]
    rw [splitLines_joinLines l ls h]

theorem dropWhile_idem (p : Char → Bool) (s : Str) :
    (s.dropWhile p).dropWhile p = s.dropWhile p := by
  induction s with
  | nil => rfl
  | cons c s ih =>
    by_cases hc : p c = true
    · simp only [List.dropWhile, hc]
      exact ih
    · simp [List.dropWhile, hc]

theorem trim_trimStart (s : Str) : trim (s.dropWhile isSpace) = trim s := by
  simp only [trim, dropWhile_idem]

theorem isSpace_ne_dash {c : Char} (h : isSpace c = true) : c ≠ '-' := by
  rintro rfl
  revert h
  decide

theorem isSpace_not_isDigit {c : Char} (h : isSpace c = true) : isDigit c = false := by
  simp only [isSpace, Bool.or_eq_true, beq_iff_eq, Bool.and_eq_true, decide_eq_true_eq] at h
  simp only [isDigit, Bool.and_eq_false_iff, decide_eq_false_iff_not]
  omega

theorem isDigit_not_isSpace {c : Char} (h : isDigit c = true) : isSpace c = false := by
  cases h' : isSpace c with
  | false => rfl
  | true => simp [isSpace_not_isDigit h'] at h

theorem isDigit_ne_period {c : Char} (h : isDigit c = true) : c ≠ '.' := by
  rintro rfl
  revert h
  decide

theorem run_star_reject {α : Type} (p : Char → Bool) (k : Str → List Str → Option α)
    (caps : List Str) (hk : ∀ c s, p c = true → k (c :: s) caps = none) (s : Str) :
    (Regex.star p).run s caps k = k (s.dropWhile p) caps := by
  simp only [Regex.run]
  exact starRun_reject p (fun s' => k s' caps) hk s

theorem run_plus_reject {α : Type} (p : Char → Bool) (k : Str → List Str → Option α)
    (caps : List Str) (hk : ∀ c s, p c = true → k (c :: s) caps = none) (s : Str) :
    (Regex.plus p).run s caps k =
      match s with
      | [] => none
      | c :: s' => if p c = true then k (s'.dropWhile p) caps else none := by
  cases s with
  | nil => simp [Regex.plus, Regex.run]
  | cons c s' =>
    simp only [Regex.plus, Regex.run]
    by_cases hc : p c = true
    · simp only [hc, if_true]
      exact starRun_reject p (fun s' => k s' caps) hk s'
    · simp [hc]

theorem run_lits {α : Type} (l : Str) (k : Str → List Str → Option α) (caps : List Str)
    (s : Str) :
    (Regex.cat (l.map Regex.lit)).run s caps k =
      if l.isPrefixOf s = true then k (s.drop l.length) caps else none := by
  induction l generalizing s with
  | nil => simp [Regex.cat, Regex.run]
  | cons a l ih =>
    cases s with
    | nil => simp [Regex.cat, Regex.run]
    | cons b s =>
      simp only [List.map_cons, Regex.cat, Regex.run, List.isPrefixOf, List.length_cons,
        List.drop_succ_cons, Bool.and_eq_true, beq_iff_eq]
      by_cases hab : b = a
      · subst hab
        simp [ih s]
      · have hba : ¬ a = b := fun h => hab h.symm
        simp [hab, hba]

theorem run_str {α : Type} (l : String) (k : Str → List Str → Option α) (caps : List Str)
    (s : Str) :
    (Regex.str l).run s caps k =
      if l.toList.isPrefixOf s = true then k (s.drop l.toList.length) caps else none :=
  run_lits l.toList k caps s

theorem run_seq {α : Type} (a b : Regex) (s : Str) (caps : List Str)
    (k : Str → List Str → Option α) :
    (Regex.seq a b).run s caps k = a.run s caps (fun s' caps' => b.run s' caps' k) := rfl

theorem run_grp {α : Type} (a : Regex) (s : Str) (caps : List Str)
    (k : Str → List Str → Option α) :
    (Regex.grp a).run s caps k =
      a.run s caps (fun s' caps' => k s' (caps' ++ [s.take (s.length - s'.length)])) := rfl

theorem run_lit {α : Type} (c : Char) (s : Str) (caps : List Str)
    (k : Str → List Str → Option α) :
    (Regex.lit c).run s caps k =
      match s with
      | d :: s' => if d = c then k s' caps else none
      | [] => none := rfl

theorem run_cls {α : Type} (p : Char → Bool) (s : Str) (caps : List Str)
    (k : Str → List Str → Option α) :
    (Regex.cls p).run s caps k =
      match s with
      | d :: s' => if p d = true then k s' caps else none
      | [] => none := rfl

theorem run_opt {α : Type} (a : Regex) (s : Str) (caps : List Str)
    (k : Str → List Str → Option α) :
    (Regex.opt a).run s caps k =
      match a.run s caps k with
      | some r => some r
      | none => k s caps := rfl

theorem run_eoi {α : Type} (s : Str) (caps : List Str) (k : Str → List Str → Option α) :
    Regex.eoi.run s caps k =
      match s with
      | [] => k [] caps
      | _ :: _ => none := rfl

theorem run_eps {α : Type} (s : Str) (caps : List Str) (k : Str → List Str → Option α) :
    Regex.eps.run s caps k = k s caps := rfl

theorem run_cat_nil {α : Type} (s : Str) (caps : List Str) (k : Str → List Str → Option α) :
    (Regex.cat []).run s caps k = k s caps := rfl

theorem run_cat_cons {α : Type} (r : Regex) (rs : List Regex) (s : Str) (caps : List Str)
    (k : Str → List Str → Option α) :
    (Regex.cat (r :: rs)).run s caps k =
      r.run s caps (fun s' caps' => (Regex.cat rs).run s' caps' k) := rfl

theorem run_cat_append {α : Type} (rs qs : List Regex) (s : Str) (caps : List Str)
    (k : Str → List Str → Option α) :
    (Regex.cat (rs ++ qs)).run s caps k =
      (Regex.cat rs).run s caps (fun s' caps' => (Regex.cat qs).run s' caps' k) := by
  induction rs generalizing s caps with
  | nil => rfl
  | cons r rs ih =>
    simp only [List.cons_append, run_cat_cons]
    congr 1
    funext s' caps'
    exact ih s' caps'

theorem takeWhile_append_dropWhile_length (p : Char → Bool) (s : Str) :
    s.take (s.length - (s.dropWhile p).length) = s.takeWhile p := by
  have h := List.takeWhile_append_dropWhile p s
  have hlen := congrArg List.length h
  simp only [List.length_append] at hlen
  have e : s.length - (s.dropWhile p).length = (s.takeWhile p).length := by omega
  rw [e]
  have h2 := List.take_left (s.takeWhile p) (s.dropWhile p)
  rwa [h] at h2

/-- The head of a task line, `(\s*)- \[([ x])\]\s*`, is deterministic: it passes to what
follows the rest of the line after the checkbox and the blanks behind it. -/
theorem run_boxPrefix {α : Type} (k : Str → List Str → Option α)
    (hk : ∀ c s caps, isSpace c = true → k (c :: s) caps = none) (line : Str) :
    (Regex.cat [.grp (.star isSpace), .str "- [", .grp (.cls isBox), .lit ']',
        .star isSpace]).run line [] k =
      if "- [".toList.isPrefixOf (line.dropWhile isSpace) = true then
        match (line.dropWhile isSpace).drop 3 with
        | c :: e :: r =>
          if isBox c = true ∧ e = ']' then
            k (r.dropWhile isSpace) [line.takeWhile isSpace, [c]]
          else none
        | _ => none
      else none := by
  simp only [run_cat_cons, run_cat_nil, run_grp]
  rw [run_star_reject]
  · simp only [run_str, takeWhile_append_dropWhile_length]
    split
    · rename_i hp
      have h3 : "- [".toList.length = 3 := rfl
      rw [h3]
      cases hd : List.drop 3 (List.dropWhile isSpace line) with
      | nil => simp [run_cls]
      | cons c r1 =>
        cases r1 with
        | nil => 
          by_cases hc : isBox c = true <;> simp [run_cls, run_lit, hc]
        | cons e r =>
          simp only [run_cls, run_lit]
          by_cases hc : isBox c = true
          · by_cases he : e = ']'
            · simp only [hc, he, if_true, and_self]
              rw [run_star_reject]
              · simp
              · intro c' s' hc'
                exact hk c' s' _ hc'
            · simp [hc, he]
          · simp [hc]
    · rfl
  · intro c s hc
    simp only [run_str]
    have : "- [".toList = ['-', ' ', '['] := rfl
    simp [this, List.isPrefixOf, (isSpace_ne_dash hc).symm]

/-- The pattern `(.+)$`: the rest of the line, when it is not empty and holds no line
terminator. -/
theorem run_dotsEnd {α : Type} (k : Str → List Str → Option α) (caps : List Str) (s : Str) :
    (Regex.cat [.grp (.plus isDot), .eoi]).run s caps k =
      if s ≠ [] ∧ ∀ x ∈ s, isDot x = true then k [] (caps ++ [s]) else none := by
  simp only [run_cat_cons, run_cat_nil, run_grp]
  rw [run_plus_reject]
  · cases s with
    | nil => simp
    | cons c s' =>
      by_cases hc : isDot c = true
      · simp only [hc, if_true, run_eoi]
        cases hd : List.dropWhile isDot s' with
        | nil =>
          have hall : ∀ x ∈ s', isDot x = true := List.dropWhile_eq_nil_iff.mp hd
          simp only [List.mem_cons, forall_eq_or_imp, hc, true_and, ne_eq,
            not_false_eq_true, reduceCtorEq, List.length_nil, Nat.sub_zero, List.take_length]
          rw [if_pos hall]
        | cons e r =>
          have hall : ¬ ∀ x ∈ s', isDot x = true := by
            intro h
            have := List.dropWhile_eq_nil_iff.mpr h
            rw [hd] at this
            exact List.cons_ne_nil _ _ this
          simp only [List.mem_cons, forall_eq_or_imp, hc, true_and, ne_eq,
            not_false_eq_true, reduceCtorEq]
          rw [if_neg hall]
      · simp [hc]
  · intro c s' _
    rfl

/-- The pattern `\s+(.+)$` on blanks followed by a text that does not start with a blank: the
blanks are skipped and the text is the group. -/
theorem run_tail_greedy {α : Type} (k : Str → List Str → Option α) (caps : List Str)
    (w : Char) (ws desc : Str) (hw : isSpace w = true) (hws : ∀ x ∈ ws, isSpace x = true)
    (hne : desc.dropWhile isSpace ≠ []) (hdot : ∀ x ∈ desc.dropWhile isSpace, isDot x = true)
    (hk : (k [] (caps ++ [desc.dropWhile isSpace])).isSome = true) :
    (Regex.cat [.plus isSpace, .grp (.plus isDot), .eoi]).run (w :: (ws ++ desc)) caps k =
      k [] (caps ++ [desc.dropWhile isSpace]) := by
  rw [run_cat_cons]
  simp only [Regex.plus, run_seq, run_cls, hw, if_true]
  have hdrop : List.dropWhile isSpace (ws ++ desc) = List.dropWhile isSpace desc :=
    dropWhile_append_of_all ws desc hws
  have hval : (Regex.cat [.grp (.plus isDot), .eoi]).run (List.dropWhile isSpace (ws ++ desc))
      caps k = k [] (caps ++ [desc.dropWhile isSpace]) := by
    rw [run_dotsEnd, hdrop, if_pos ⟨hne, hdot⟩]
  show starRun isSpace (fun s' => (Regex.cat [.grp (.plus isDot), .eoi]).run s' caps k)
      (ws ++ desc) = _
  rw [starRun_greedy]
  · exact hval
  · show ((Regex.cat [.grp (.plus isDot), .eoi]).run (List.dropWhile isSpace (ws ++ desc))
      caps k).isSome = true
    rw [hval]
    exact hk

/-- The pattern `\s+(.+)$` fails on a text that does not start with a blank. -/
theorem run_tail_reject {α : Type} (k : Str → List Str → Option α) (caps : List Str)
    (c : Char) (s : Str) (hc : isSpace c = false) :
    (Regex.cat [.plus isSpace, .grp (.plus isDot), .eoi]).run (c :: s) caps k = none := by
  rw [run_cat_cons]
  simp [Regex.plus, run_seq, run_cls, hc]

/-- The id of `detect-state.js`, `(\d+\.\d+)`, before something that cannot start with a
digit: digits, a period, digits. -/
theorem run_idDotted {α : Type} (k : Str → List Str → Option α)
    (hk : ∀ c s caps, isDigit c = true → k (c :: s) caps = none) (caps : List Str) (s : Str) :
    (Regex.grp (.cat [.plus isDigit, .lit '.', .plus isDigit])).run s caps k =
      match s with
      | [] => none
      | a :: s1 =>
        if isDigit a = true then
          match s1.dropWhile isDigit with
          | e :: b :: s2 =>
            if e = '.' ∧ isDigit b = true then
              k (s2.dropWhile isDigit)
                (caps ++ [(a :: s1).take ((a :: s1).length - (s2.dropWhile isDigit).length)])
            else none
          | _ => none
        else none := by
  simp only [run_grp, run_cat_cons, run_cat_nil]
  rw [run_plus_reject]
  · cases s with
    | nil => rfl
    | cons a s1 =>
      by_cases ha : isDigit a = true
      · simp only [ha, if_true, run_lit]
        cases hd : List.dropWhile isDigit s1 with
        | nil => rfl
        | cons e r =>
          by_cases he : e = '.'
          · simp only [he, if_true, true_and]
            rw [run_plus_reject]
            · cases r with
              | nil => rfl
              | cons b s2 => simp
            · intro c s' hc
              exact hk c s' _ hc
          · cases r with
            | nil => simp [he]
            | cons b s2 => simp [he]
      · simp [ha]
  · intro c s' hc
    simp [run_lit, isDigit_ne_period hc]

theorem dropWhile_append_stop {p : Char → Bool} (m : Str) (c : Char) (r : Str)
    (hm : ∀ x ∈ m, p x = true) (hc : p c = false) :
    (m ++ c :: r).dropWhile p = c :: r := by
  rw [dropWhile_append_of_all m _ hm]
  simp [List.dropWhile, hc]

theorem takeWhile_append_stop {p : Char → Bool} (m : Str) (c : Char) (r : Str)
    (hm : ∀ x ∈ m, p x = true) (hc : p c = false) :
    (m ++ c :: r).takeWhile p = m := by
  induction m with
  | nil => simp [List.takeWhile, hc]
  | cons a m ih =>
    have ha : p a = true := hm a (List.mem_cons_self a m)
    have ih' := ih (fun x hx => hm x (List.mem_cons_of_mem a hx))
    simp only [List.cons_append, List.takeWhile, ha]
    exact congrArg (List.cons a) ih'

/-- The task pattern of `detect-state.js` is its head, then its id, then `\s+(.+)$`. -/
theorem reTask_run {α : Type} (k : Str → List Str → Option α) (line : Str) :
    DetectState.reTask.run line [] k =
      (Regex.cat [.grp (.star isSpace), .str "- [", .grp (.cls isBox), .lit ']',
        .star isSpace]).run line []
        (fun s caps => (Regex.grp (.cat [.plus isDigit, .lit '.', .plus isDigit])).run s caps
          (fun s' caps' => (Regex.cat [.plus isSpace, .grp (.plus isDot), .eoi]).run s' caps' k)) :=
  rfl

theorem idDotted_tail_reject {α : Type} (k : Str → List Str → Option α) (c : Char) (s : Str)
    (caps : List Str) (hc : isSpace c = true) :
    (Regex.grp (.cat [.plus isDigit, .lit '.', .plus isDigit])).run (c :: s) caps
      (fun s' caps' => (Regex.cat [.plus isSpace, .grp (.plus isDot), .eoi]).run s' caps' k) =
      none := by
  rw [run_idDotted]
  · simp [isSpace_not_isDigit hc]
  · intro d s' caps' hd
    exact run_tail_reject k caps' d s' (isDigit_not_isSpace hd)

/-- The match of the task pattern of `detect-state.js` on a line in the form of the
checklist: blanks, `- [`, the box, `]`, blanks, digits `.` digits, blanks, text. -/
theorem reTask_canonical (indent sp d1 d2 ws desc : Str) (c a b w : Char)
    (hind : ∀ x ∈ indent, isSpace x = true) (hc : isBox c = true)
    (hsp : ∀ x ∈ sp, isSpace x = true)
    (ha : isDigit a = true) (hd1 : ∀ x ∈ d1, isDigit x = true)
    (hb : isDigit b = true) (hd2 : ∀ x ∈ d2, isDigit x = true)
    (hw : isSpace w = true) (hws : ∀ x ∈ ws, isSpace x = true)
    (hne : desc.dropWhile isSpace ≠ [])
    (hdot : ∀ x ∈ desc.dropWhile isSpace, isDot x = true) :
    DetectState.reTask.matchStart
        (indent ++ '-' :: ' ' :: '[' :: c :: ']' ::
          (sp ++ a :: (d1 ++ '.' :: b :: (d2 ++ w :: (ws ++ desc))))) =
      some [indent, [c], a :: (d1 ++ '.' :: b :: d2), desc.dropWhile isSpace] := by
  have hdash : isSpace '-' = false := by decide
  have hperiod : isDigit '.' = false := by decide
  simp only [Regex.matchStart, Regex.matchAt]
  rw [reTask_run, run_boxPrefix]
  · rw [dropWhile_append_stop indent '-' _ hind hdash,
      takeWhile_append_stop indent '-' _ hind hdash]
    have h3 : "- [".toList = ['-', ' ', '['] := rfl
    simp only [h3, List.isPrefixOf, beq_self_eq_true, Bool.and_self, if_true, List.drop_succ_cons,
      List.drop_zero, hc, and_self]
    rw [dropWhile_append_stop sp a _ hsp (isDigit_not_isSpace ha), run_idDotted]
    · simp only [ha, if_true]
      rw [dropWhile_append_stop d1 '.' _ hd1 hperiod]
      simp only [hb, and_self, if_true]
      rw [dropWhile_append_stop d2 w _ hd2 (isSpace_not_isDigit hw)]
      have hcap : (a :: (d1 ++ '.' :: b :: (d2 ++ w :: (ws ++ desc)))).take
          ((a :: (d1 ++ '.' :: b :: (d2 ++ w :: (ws ++ desc)))).length -
            (w :: (ws ++ desc)).length) = a :: (d1 ++ '.' :: b :: d2) := by
        have e : a :: (d1 ++ '.' :: b :: (d2 ++ w :: (ws ++ desc))) =
            (a :: (d1 ++ '.' :: b :: d2)) ++ (w :: (ws ++ desc)) := by simp
        rw [e]
        exact take_length_sub _ _
      rw [hcap, run_tail_greedy (fun s' caps => some (s', caps)) _ w ws desc hw hws hne hdot rfl]
      rfl
    · intro d s' caps' hd
      exact run_tail_reject _ caps' d s' (isDigit_not_isSpace hd)
  · intro d s' caps' hd
    exact idDotted_tail_reject _ d s' caps' hd

/-! ### Headers -/

theorem includes_of_isPrefixOf (s pat : Str) (h : pat.isPrefixOf s = true) :
    includes s pat = true := by
  cases s with
  | nil => simpa [includes] using h
  | cons c s => simp [includes, h]

theorem includes_cons (c : Char) (s pat : Str) (h : includes s pat = true) :
    includes (c :: s) pat = true := by
  simp [includes, h]

theorem includes_append_left (m s pat : Str) (h : includes s pat = true) :
    includes (m ++ s) pat = true := by
  induction m with
  | nil => exact h
  | cons c m ih => exact includes_cons c (m ++ s) pat ih

theorem includes_of_drop (n : Nat) (s pat : Str) (h : includes (s.drop n) pat = true) :
    includes s pat = true := by
  have := includes_append_left (s.take n) (s.drop n) pat h
  rwa [List.take_append_drop] at this

theorem includes_of_dropWhile (p : Char → Bool) (s pat : Str)
    (h : includes (s.dropWhile p) pat = true) : includes s pat = true := by
  have := includes_append_left (s.takeWhile p) (s.dropWhile p) pat h
  rwa [List.takeWhile_append_dropWhile] at this

theorem isPrefixOf_of_append (pat x r : Str) (h : (pat ++ x).isPrefixOf r = true) :
    pat.isPrefixOf r = true := by
  rw [List.isPrefixOf_iff_prefix] at h ⊢
  exact (List.prefix_append pat x).trans h

theorem mem_of_isPrefixOf (c : Char) (pat r : Str) (h : (c :: pat).isPrefixOf r = true) :
    c ∈ r := by
  rw [List.isPrefixOf_iff_prefix] at h
  exact h.subset (List.mem_cons_self c pat)

/-- The pattern `####\s*Task Group \d+:` at the head of `s`, step by step. -/
theorem reTaskGroup_run {α : Type} (k : Str → List Str → Option α) (caps : List Str)
    (s : Str) :
    DetectState.reTaskGroup.run s caps k =
      if "####".toList.isPrefixOf s = true then
        if "Task Group ".toList.isPrefixOf ((s.drop 4).dropWhile isSpace) = true then
          match ((s.drop 4).dropWhile isSpace).drop 11 with
          | [] => none
          | a :: t =>
            if isDigit a = true then
              match t.dropWhile isDigit with
              | e :: u => if e = ':' then k u caps else none
              | [] => none
            else none
        else none
      else none := by
  have h4 : "####".toList.length = 4 := rfl
  have h11 : "Task Group ".toList.length = 11 := rfl
  have hT : "Task Group ".toList =
      ['T', 'a', 's', 'k', ' ', 'G', 'r', 'o', 'u', 'p', ' '] := rfl
  simp only [DetectState.reTaskGroup, run_cat_cons, run_cat_nil, run_str, h4]
  split
  · rw [run_star_reject]
    · simp only [h11]
      split
      · rw [run_plus_reject]
        · rfl
        · intro c s' hc
          have hne : ¬ c = ':' := fun h => by
            subst h
            revert hc
            decide
          simp [run_lit, hne]
      · rfl
    · intro c s' hc
      have : ¬ 'T' = c := fun h => by subst h; revert hc; decide
      simp [hT, List.isPrefixOf, this]
  · rfl

theorem reTaskGroup_matchAt_isSome (s : Str)
    (h : (DetectState.reTaskGroup.matchAt s).isSome = true) :
    "####".toList.isPrefixOf s = true ∧
      "Task Group ".toList.isPrefixOf ((s.drop 4).dropWhile isSpace) = true := by
  simp only [Regex.matchAt, reTaskGroup_run] at h
  by_cases h1 : "####".toList.isPrefixOf s = true
  · by_cases h2 : "Task Group ".toList.isPrefixOf ((s.drop 4).dropWhile isSpace) = true
    · exact ⟨h1, h2⟩
    · rw [if_pos h1, if_neg h2] at h
      exact absurd h (by decide)
  · rw [if_neg h1] at h
    exact absurd h (by decide)

theorem reTaskGroup_test_includes (s : Str) (h : DetectState.reTaskGroup.test s = true) :
    includes s "Task Group".toList = true := by
  have key : ∀ t : Str, (DetectState.reTaskGroup.matchAt t).isSome = true →
      includes t "Task Group".toList = true := by
    intro t ht
    have h2 := (reTaskGroup_matchAt_isSome t ht).2
    have h3 : "Task Group".toList.isPrefixOf ((t.drop 4).dropWhile isSpace) = true :=
      isPrefixOf_of_append "Task Group".toList " ".toList _ h2
    exact includes_of_drop 4 t _ (includes_of_dropWhile isSpace _ _
      (includes_of_isPrefixOf _ _ h3))
  induction s with
  | nil => exact key [] (by simpa [Regex.test] using h)
  | cons c s ih =>
    simp only [Regex.test, Bool.or_eq_true] at h
    rcases h with h | h
    · exact key _ h
    · exact includes_cons c s _ (ih h)

theorem reTaskGroup_test_hash (s : Str) (h : DetectState.reTaskGroup.test s = true) :
    '#' ∈ s := by
  have key : ∀ t : Str, (DetectState.reTaskGroup.matchAt t).isSome = true → '#' ∈ t := by
    intro t ht
    exact mem_of_isPrefixOf '#' ['#', '#', '#'] t (reTaskGroup_matchAt_isSome t ht).1
  induction s with
  | nil => exact key [] (by simpa [Regex.test] using h)
  | cons c s ih =>
    simp only [Regex.test, Bool.or_eq_true] at h
    rcases h with h | h
    · exact key _ h
    · exact List.mem_cons_of_mem c (ih h)

theorem removeStart_str_blanks (p : String) (s : Str) :
    (Regex.cat [.str p, .star isSpace]).removeStart s =
      if p.toList.isPrefixOf s = true then (s.drop p.toList.length).dropWhile isSpace
      else s := by
  simp only [Regex.removeStart, Regex.matchAt, run_cat_cons, run_cat_nil, run_str]
  by_cases hp : p.toList.isPrefixOf s = true
  · rw [if_pos hp, if_pos hp]
    have hrun : (Regex.star isSpace).run (s.drop p.toList.length) []
        (fun s' caps' => some (s', caps')) =
        some ((s.drop p.toList.length).dropWhile isSpace, []) := by
      simp only [Regex.run]
      rw [starRun_greedy]
      rfl
    rw [hrun]
  · rw [if_neg hp, if_neg hp]

theorem reTask_matchStart_of_hash (r : Str) :
    DetectState.reTask.matchStart ('#' :: r) = none := by
  simp only [Regex.matchStart, Regex.matchAt]
  rw [reTask_run, run_boxPrefix]
  · have h3 : "- [".toList = ['-', ' ', '['] := rfl
    have hh : isSpace '#' = false := by decide
    simp [h3, List.dropWhile, hh, List.isPrefixOf]
  · intro d s' caps' hd
    exact idDotted_tail_reject _ d s' caps' hd

theorem taskOfLine_of_hash (g : Option Str) (r : Str) :
    DetectState.taskOfLine g ('#' :: r) = none := by
  simp [DetectState.taskOfLine, reTask_matchStart_of_hash]

theorem taskOfLine_isSome (g g' : Option Str) (l : Str) :
    (DetectState.taskOfLine g l).isSome = (DetectState.taskOfLine g' l).isSome := by
  simp only [DetectState.taskOfLine]
  split <;> simp_all

theorem taskOfLine_group (g : Option Str) (l : Str) (t : DetectState.Task)
    (h : DetectState.taskOfLine g l = some t) : t.group = orDefault "Ungrouped".toList g := by
  simp only [DetectState.taskOfLine] at h
  split at h
  · simp only [Option.some.injEq] at h
    rw [← h]
  · exact absurd h (by simp)

theorem nextGroup_h3 (g : Option Str) (text : Str)
    (h : includes text "Task Group".toList = false) :
    DetectState.nextGroup g ("### ".toList ++ text) = some (trim text) := by
  have hP : "### ".toList = ['#', '#', '#', ' '] := rfl
  have hH : "###".toList = ['#', '#', '#'] := rfl
  have hT : "Task Group".toList = ['T', 'a', 's', 'k', ' ', 'G', 'r', 'o', 'u', 'p'] := rfl
  have hinc : includes ("### ".toList ++ text) "Task Group".toList = false := by
    rw [hT] at h ⊢
    simp [hP, includes, List.isPrefixOf, h]
  have htest : DetectState.reTaskGroup.test ("### ".toList ++ text) = false := by
    cases ht : DetectState.reTaskGroup.test ("### ".toList ++ text) with
    | false => rfl
    | true =>
      have := reTaskGroup_test_includes _ ht
      rw [hinc] at this
      exact absurd this (by decide)
  have hsp : isSpace ' ' = true := by decide
  simp only [DetectState.nextGroup, htest, hinc, DetectState.reH3, removeStart_str_blanks]
  simp [startsWith, hP, hH, List.isPrefixOf, List.dropWhile, hsp, trim_trimStart]

theorem nextGroup_h4 (g : Option Str) (a : Char) (n text : Str) (ha : isDigit a = true)
    (hn : ∀ x ∈ n, isDigit x = true) :
    DetectState.nextGroup g ("#### Task Group ".toList ++ (a :: n) ++ ": ".toList ++ text) =
      some (trim ("Task Group ".toList ++ (a :: n) ++ ": ".toList ++ text)) := by
  have hP : "#### Task Group ".toList =
      ['#', '#', '#', '#', ' ', 'T', 'a', 's', 'k', ' ', 'G', 'r', 'o', 'u', 'p', ' '] := rfl
  have hG : "Task Group ".toList =
      ['T', 'a', 's', 'k', ' ', 'G', 'r', 'o', 'u', 'p', ' '] := rfl
  have hH : "####".toList = ['#', '#', '#', '#'] := rfl
  have hC : ": ".toList = [':', ' '] := rfl
  have hsp : isSpace ' ' = true := by decide
  have hT : isSpace 'T' = false := by decide
  have hcolon : isDigit ':' = false := by decide
  have hdrop : List.dropWhile isDigit (n ++ ':' :: ' ' :: text) = ':' :: ' ' :: text :=
    dropWhile_append_stop n ':' _ hn hcolon
  have htest : DetectState.reTaskGroup.test
      ("#### Task Group ".toList ++ (a :: n) ++ ": ".toList ++ text) = true := by
    simp only [hP, hC, List.cons_append, List.nil_append, List.append_assoc, Regex.test,
      Regex.matchAt, reTaskGroup_run, Bool.or_eq_true]
    left
    simp [hH, hG, List.isPrefixOf, List.dropWhile, hsp, hT, ha, hdrop]
  simp only [DetectState.nextGroup, htest, if_true, DetectState.reH4, removeStart_str_blanks]
  simp [hP, hG, hH, hC, List.isPrefixOf, List.dropWhile, hsp, hT]

theorem nextGroup_plain (g : Option Str) (l : Str) (h : '#' ∉ l) :
    DetectState.nextGroup g l = g := by
  have htest : DetectState.reTaskGroup.test l = false := by
    cases ht : DetectState.reTaskGroup.test l with
    | false => rfl
    | true => exact absurd (reTaskGroup_test_hash l ht) h
  have hstart : startsWith l "###".toList = false := by
    cases hs : startsWith l "###".toList with
    | false => rfl
    | true => exact absurd (mem_of_isPrefixOf '#' ['#', '#'] l hs) h
  simp only [DetectState.nextGroup, htest, hstart]
  simp

theorem render_no_newline (d : DocLine) (h : d.wf = true) : ∀ x ∈ d.render, x ≠ '\n' := by
  have hdig : ∀ y, isDigit y = true → y ≠ '\n' := by
    intro y hy e
    subst e
    revert hy
    decide
  cases d with
  | h3 text =>
    simp only [DocLine.wf, Bool.and_eq_true, List.all_eq_true, bne_iff_ne, ne_eq] at h
    have hmark : ∀ x ∈ "### ".toList, x ≠ '\n' := by decide
    simp only [DocLine.render, List.forall_mem_append]
    exact ⟨hmark, h.2⟩
  | h4 n text =>
    simp only [DocLine.wf, Bool.and_eq_true, List.all_eq_true, bne_iff_ne, ne_eq] at h
    have hmark : ∀ x ∈ "#### Task Group ".toList, x ≠ '\n' := by decide
    have hcolon : ∀ x ∈ ": ".toList, x ≠ '\n' := by decide
    simp only [DocLine.render, List.forall_mem_append]
    exact ⟨⟨⟨hmark, fun x hx => hdig x (h.1.2 x hx)⟩, hcolon⟩, h.2⟩
  | plain line =>
    simp only [DocLine.wf, List.all_eq_true, Bool.and_eq_true, bne_iff_ne, ne_eq] at h
    exact fun x hx => (h x hx).2

/-- The loop of `parseTasks` on a document whose `#` are in headers only: the groups of
the tasks. -/
theorem detect_groups_loop (ds : List DocLine) (hwf : ∀ d ∈ ds, d.wf = true)
    (g : Option Str) :
    (DetectState.parseLines { tasks := [], currentGroup := g }
        (ds.map DocLine.render)).tasks.map (fun t => t.group) =
      groupsBy DocLine.headerTextOrUngrouped (orDefault "Ungrouped".toList g) ds := by
  induction ds generalizing g with
  | nil => rfl
  | cons d ds ih =>
    have hd : d.wf = true := hwf d (List.mem_cons_self d ds)
    have hds : ∀ e ∈ ds, e.wf = true := fun e he => hwf e (List.mem_cons_of_mem d he)
    have hstep : ∀ st : DetectState.ParseState,
        DetectState.parseLines st ((d :: ds).map DocLine.render) =
          DetectState.parseLines (DetectState.parseStep st d.render)
            (ds.map DocLine.render) := fun st => rfl
    rw [hstep]
    cases d with
    | h3 text =>
      simp only [DocLine.wf, Bool.and_eq_true, Bool.not_eq_true'] at hd
      have hng := nextGroup_h3 g text hd.1
      have hline : "### ".toList ++ text = '#' :: ("## ".toList ++ text) := rfl
      have htl : DetectState.taskOfLine (some (trim text)) ("### ".toList ++ text) = none := by
        rw [hline]
        exact taskOfLine_of_hash _ _
      simp only [DetectState.parseStep, DocLine.render, hng, htl]
      rw [ih hds]
      simp [groupsBy, DocLine.headerTextOrUngrouped, DocLine.headerText]
    | h4 n text =>
      simp only [DocLine.wf, Bool.and_eq_true, List.all_eq_true, Bool.not_eq_true',
        List.isEmpty_eq_false] at hd
      cases n with
      | nil => exact absurd rfl hd.1.1
      | cons a n =>
        have hng := nextGroup_h4 g a n text (hd.1.2 a (List.mem_cons_self a n))
          (fun x hx => hd.1.2 x (List.mem_cons_of_mem a hx))
        have hline : "#### Task Group ".toList ++ (a :: n) ++ ": ".toList ++ text =
            '#' :: ("### Task Group ".toList ++ (a :: n) ++ ": ".toList ++ text) := rfl
        have htl : DetectState.taskOfLine
            (some (trim ("Task Group ".toList ++ (a :: n) ++ ": ".toList ++ text)))
            ("#### Task Group ".toList ++ (a :: n) ++ ": ".toList ++ text) = none := by
          rw [hline]
          exact taskOfLine_of_hash _ _
        simp only [DetectState.parseStep, DocLine.render, hng, htl]
        rw [ih hds]
        simp [groupsBy, DocLine.headerTextOrUngrouped, DocLine.headerText]
    | plain line =>
      simp only [DocLine.wf, List.all_eq_true, Bool.and_eq_true, bne_iff_ne, ne_eq] at hd
      have hhash : '#' ∉ line := fun hm => (hd '#' hm).1 rfl
      have hng := nextGroup_plain g line hhash
      simp only [DetectState.parseStep, DocLine.render, hng]
      cases ht : DetectState.taskOfLine g line with
      | none =>
        have hnone : (DetectState.taskOfLine none line).isSome = false := by
          rw [taskOfLine_isSome none g, ht]
          rfl
        simp only [List.nil_append]
        rw [ih hds]
        simp [groupsBy, DocLine.headerTextOrUngrouped, DocLine.headerText, DocLine.render,
          hnone]
      | some t =>
        have hsome : (DetectState.taskOfLine none line).isSome = true := by
          rw [taskOfLine_isSome none g, ht]
          rfl
        simp only [List.nil_append]
        rw [detect_parseLines_tasks, List.map_append, ih hds]
        simp [groupsBy, DocLine.headerTextOrUngrouped, DocLine.headerText, DocLine.render,
          hsome, taskOfLine_group g line t ht]

/-! ### The claims -/

/-- A task line whose description holds no line terminator at all has exactly one task in
the output of `parseTasks` of `detect-state.js`, between the tasks of the lines before it
and those of the lines after it. -/
theorem detect_parseTasks_line_of_dots (pre post : List Str) (indent d1 d2 ws desc : Str)
    (c : Char)
    (hpre : ∀ m ∈ pre, ∀ x ∈ m, x ≠ '\n') (hpost : ∀ m ∈ post, ∀ x ∈ m, x ≠ '\n')
    (hind : ∀ x ∈ indent, isSpace x = true ∧ x ≠ '\n')
    (hc : c = ' ' ∨ c = 'x')
    (hd1 : d1 ≠ [] ∧ ∀ x ∈ d1, isDigit x = true)
    (hd2 : d2 ≠ [] ∧ ∀ x ∈ d2, isDigit x = true)
    (hws : ws ≠ [] ∧ ∀ x ∈ ws, isSpace x = true ∧ x ≠ '\n')
    (hblank : ∃ x ∈ desc, isSpace x = false)
    (hnl : ∀ x ∈ desc, isLineTerminator x = false) :
    ∃ g : Option Str,
      DetectState.parseTasks (joinLines (pre ++
          (indent ++ "- [".toList ++ [c] ++ "] ".toList ++ d1 ++ ".".toList ++ d2 ++ ws ++ desc)
            :: post)) =
        DetectState.parseTasks (joinLines pre) ++
          { id := d1 ++ ".".toList ++ d2
            description := trim desc
            completed := c == 'x'
            group := orDefault "Ungrouped".toList g
            indent := indent.length } ::
          (DetectState.parseLines { tasks := [], currentGroup := g } post).tasks := by
  obtain ⟨hd1ne, hd1d⟩ := hd1
  obtain ⟨hd2ne, hd2d⟩ := hd2
  obtain ⟨hwsne, hwss⟩ := hws
  cases d1 with
  | nil => exact absurd rfl hd1ne
  | cons a d1 =>
  cases d2 with
  | nil => exact absurd rfl hd2ne
  | cons b d2 =>
  cases ws with
  | nil => exact absurd rfl hwsne
  | cons w ws =>
  -- the line, bracketed the way the pattern reads it
  have hline : indent ++ "- [".toList ++ [c] ++ "] ".toList ++ (a :: d1) ++ ".".toList ++
      (b :: d2) ++ (w :: ws) ++ desc =
      indent ++ '-' :: ' ' :: '[' :: c :: ']' ::
        ([' '] ++ a :: (d1 ++ '.' :: b :: (d2 ++ w :: (ws ++ desc)))) := by
    have h1 : "- [".toList = ['-', ' ', '['] := rfl
    have h2 : "] ".toList = [']', ' '] := rfl
    have h3 : ".".toList = ['.'] := rfl
    simp [h1, h2, h3]
  have hid : (a :: d1) ++ ".".toList ++ (b :: d2) = a :: (d1 ++ '.' :: b :: d2) := by
    have h3 : ".".toList = ['.'] := rfl
    simp [h3]
  have hbox : isBox c = true := by
    rcases hc with rfl | rfl <;> decide
  have hdot : ∀ x ∈ desc.dropWhile isSpace, isDot x = true := by
    intro x hx
    have hx' : x ∈ desc := (List.dropWhile_sublist isSpace).subset hx
    simp [isDot, hnl x hx']
  have hne : desc.dropWhile isSpace ≠ [] := by
    intro h
    obtain ⟨x, hx, hxs⟩ := hblank
    have := List.dropWhile_eq_nil_iff.mp h x hx
    simp [hxs] at this
  have hmatch := reTask_canonical indent [' '] d1 d2 ws desc c a b w
    (fun x hx => (hind x hx).1) hbox (by decide)
    (hd1d a (List.mem_cons_self a d1)) (fun x hx => hd1d x (List.mem_cons_of_mem a hx))
    (hd2d b (List.mem_cons_self b d2)) (fun x hx => hd2d x (List.mem_cons_of_mem b hx))
    (hwss w (List.mem_cons_self w ws)).1 (fun x hx => (hwss x (List.mem_cons_of_mem w hx)).1)
    hne hdot
  -- the line holds no '\n'
  have hlnl : ∀ x ∈ indent ++ '-' :: ' ' :: '[' :: c :: ']' ::
      ([' '] ++ a :: (d1 ++ '.' :: b :: (d2 ++ w :: (ws ++ desc)))), x ≠ '\n' := by
    have hdig : ∀ y, isDigit y = true → y ≠ '\n' := by
      intro y hy e
      subst e
      revert hy
      decide
    have hcn : c ≠ '\n' := by
      rcases hc with rfl | rfl <;> decide
    have hdn : ∀ x ∈ desc, x ≠ '\n' := by
      intro x hx e
      subst e
      have := hnl _ hx
      revert this
      decide
    simp only [List.forall_mem_append, List.forall_mem_cons]
    refine ⟨fun x hx => (hind x hx).2, by decide, by decide, by decide, hcn, by decide,
      ⟨by decide, fun x hx => absurd hx (List.not_mem_nil x)⟩,
      hdig _ (hd1d _ (List.mem_cons_self _ _)),
      fun x hx => hdig _ (hd1d _ (List.mem_cons_of_mem _ hx)), by decide,
      hdig _ (hd2d _ (List.mem_cons_self _ _)),
      fun x hx => hdig _ (hd2d _ (List.mem_cons_of_mem _ hx)),
      (hwss _ (List.mem_cons_self _ _)).2,
      fun x hx => (hwss _ (List.mem_cons_of_mem _ hx)).2, hdn⟩
  rw [hline, hid]
  refine ⟨DetectState.nextGroup
    (DetectState.parseLines { tasks := [], currentGroup := none } pre).currentGroup
    (indent ++ '-' :: ' ' :: '[' :: c :: ']' ::
        ([' '] ++ a :: (d1 ++ '.' :: b :: (d2 ++ w :: (ws ++ desc))))), ?_⟩
  rw [detect_parseTasks_joinLines pre hpre, detect_parseTasks_joinLines]
  · rw [detect_parseLines_append]
    simp only [DetectState.parseLines, List.foldl_cons]
    simp only [DetectState.parseStep, DetectState.taskOfLine, hmatch]
    have h := detect_parseLines_tasks post
    simp only [DetectState.parseLines] at h
    rw [h]
    simp only [trim_trimStart, List.length_cons, List.append_assoc, List.singleton_append]
    congr 3
    rcases hc with rfl | rfl <;> decide
  · intro m hm
    rcases List.mem_append.mp hm with hm | hm
    · exact hpre m hm
    · rcases List.mem_cons.mp hm with rfl | hm
      · exact hlnl
      · exact hpost m hm

/-- C1, as the code has it.  A line `<indent>- [c] <id><whitespace><desc>` of a tasks
document, with `indent` and `whitespace` runs of blanks, `c` a space or `x`, `id` digits
`.` digits and `desc` not blank, free of newlines and, from its first character that is
not a blank on, free of the other line terminators (carriage return, U+2028, U+2029:
what `.` does not match), has exactly one task in the output of `parseTasks` of
`detect-state.js`, between the tasks of the lines before it and those of the lines after
it: its id is `id`, its description is `desc` trimmed, it is completed exactly when `c` is
`x`, and its indent is the length of `indent`. -/
theorem detect_parseTasks_task_line (pre post : List Str) (indent d1 d2 ws desc : Str)
    (c : Char)
    (hpre : ∀ m ∈ pre, ∀ x ∈ m, x ≠ '\n') (hpost : ∀ m ∈ post, ∀ x ∈ m, x ≠ '\n')
    (hind : ∀ x ∈ indent, isSpace x = true ∧ x ≠ '\n')
    (hc : c = ' ' ∨ c = 'x')
    (hd1 : d1 ≠ [] ∧ ∀ x ∈ d1, isDigit x = true)
    (hd2 : d2 ≠ [] ∧ ∀ x ∈ d2, isDigit x = true)
    (hws : ws ≠ [] ∧ ∀ x ∈ ws, isSpace x = true ∧ x ≠ '\n')
    (hblank : ∃ x ∈ desc, isSpace x = false)
    (hnl : ∀ x ∈ desc, x ≠ '\n')
    (hterm : ∀ x ∈ desc.dropWhile isSpace, isLineTerminator x = false) :
    ∃ g : Option Str,
      DetectState.parseTasks (joinLines (pre ++
          (indent ++ "- [".toList ++ [c] ++ "] ".toList ++ d1 ++ ".".toList ++ d2 ++ ws ++ desc)
            :: post)) =
        DetectState.parseTasks (joinLines pre) ++
          { id := d1 ++ ".".toList ++ d2
            description := trim desc
            completed := c == 'x'
            group := orDefault "Ungrouped".toList g
            indent := indent.length } ::
          (DetectState.parseLines { tasks := [], currentGroup := g } post).tasks := by
  have hsplit : desc.takeWhile isSpace ++ desc.dropWhile isSpace = desc :=
    List.takeWhile_append_dropWhile isSpace desc
  have hlead : ∀ x ∈ desc.takeWhile isSpace, isSpace x = true ∧ x ≠ '\n' := fun x hx =>
    ⟨List.mem_takeWhile_imp hx, hnl x ((List.takeWhile_sublist isSpace).subset hx)⟩
  have hrest : ∃ x ∈ desc.dropWhile isSpace, isSpace x = false := by
    obtain ⟨x, hx, hxs⟩ := hblank
    rw [← hsplit] at hx
    rcases List.mem_append.mp hx with h | h
    · rw [List.mem_takeWhile_imp h] at hxs
      exact absurd hxs (by decide)
    · exact ⟨x, h, hxs⟩
  have hws2 : ws ++ desc.takeWhile isSpace ≠ [] ∧
      ∀ x ∈ ws ++ desc.takeWhile isSpace, isSpace x = true ∧ x ≠ '\n' := by
    refine ⟨fun h => hws.1 (List.append_eq_nil.mp h).1, fun x hx => ?_⟩
    rcases List.mem_append.mp hx with h | h
    · exact hws.2 x h
    · exact hlead x h
  obtain ⟨g, hg⟩ := detect_parseTasks_line_of_dots pre post indent d1 d2
    (ws ++ desc.takeWhile isSpace) (desc.dropWhile isSpace) c hpre hpost hind hc hd1 hd2 hws2
    hrest hterm
  refine ⟨g, ?_⟩
  have hl : indent ++ "- [".toList ++ [c] ++ "] ".toList ++ d1 ++ ".".toList ++ d2 ++
      (ws ++ desc.takeWhile isSpace) ++ desc.dropWhile isSpace =
      indent ++ "- [".toList ++ [c] ++ "] ".toList ++ d1 ++ ".".toList ++ d2 ++ ws ++ desc := by
    rw [List.append_assoc _ (ws ++ desc.takeWhile isSpace), List.append_assoc ws, hsplit,
      ← List.append_assoc]
  rw [hl, trim_trimStart] at hg
  exact hg

/-- C1 as the code has it, at the line `- [x] 1.1 Create model` standing alone: one task,
with id `1.1`, description `Create model`, completed, indent 0. -/
theorem detect_parseTasks_task_line_witness :
    (('x' = ' ' ∨ 'x' = 'x') ∧ (∃ x ∈ "Create model".toList, isSpace x = false) ∧
      (∀ x ∈ "Create model".toList, x ≠ '\n') ∧
      (∀ x ∈ "Create model".toList.dropWhile isSpace, isLineTerminator x = false)) ∧
    ∃ g : Option Str,
      DetectState.parseTasks (joinLines ([] ++
          ([] ++ "- [".toList ++ ['x'] ++ "] ".toList ++ "1".toList ++ ".".toList ++
            "1".toList ++ " ".toList ++ "Create model".toList) :: [])) =
        DetectState.parseTasks (joinLines []) ++
          { id := "1".toList ++ ".".toList ++ "1".toList
            description := trim "Create model".toList
            completed := 'x' == 'x'
            group := orDefault "Ungrouped".toList g
            indent := ([] : Str).length } ::
          (DetectState.parseLines { tasks := [], currentGroup := g } []).tasks :=
  ⟨⟨by decide, by decide, by decide, by decide⟩,
    detect_parseTasks_task_line [] [] [] "1".toList "1".toList " ".toList "Create model".toList
      'x' (by decide) (by decide) (by decide) (by decide) (by decide) (by decide) (by decide)
      (by decide) (by decide) (by decide)⟩

/-- C1 as it is written fails at a description that ends in a carriage return, which is
no newline and is not matched by `.`: the line `- [x] 1.1 Create model` followed by a
carriage return gives no task, alone and in a document with CRLF line ends, where no
line gives a task; a carriage return before the description is a blank for the pattern
and the task is emitted. -/
theorem detect_parseTasks_carriage_return :
    ((∃ x ∈ "Create model\r".toList, isSpace x = false) ∧
      (∀ x ∈ "Create model\r".toList, x ≠ '\n')) ∧
    DetectState.parseTasks ([] ++ "- [".toList ++ ['x'] ++ "] ".toList ++ "1".toList ++
      ".".toList ++ "1".toList ++ " ".toList ++ "Create model\r".toList) = [] ∧
    DetectState.parseTasks "- [x] 1.1 Create model\r\n- [ ] 1.2 Add migration\r\n".toList =
      [] ∧
    DetectState.parseTasks "- [x] 1.1 \rCreate model".toList =
      [{ id := "1.1".toList, description := "Create model".toList, completed := true,
         group := "Ungrouped".toList, indent := 0 }] := by
  decide

/-- The two lines of the witness of C1, evaluated: `- [x] 1.1 Create model` and
`- [ ] 1.2 Add migration`. -/
theorem detect_parseTasks_two_lines :
    DetectState.parseTasks "- [x] 1.1 Create model\n- [ ] 1.2 Add migration".toList =
      [{ id := "1.1".toList, description := "Create model".toList, completed := true,
         group := "Ungrouped".toList, indent := 0 },
       { id := "1.2".toList, description := "Add migration".toList, completed := false,
         group := "Ungrouped".toList, indent := 0 }] := by
  decide

/-- C2, as the code has it.  In a tasks document whose only lines with a `#` are the
headers `### text` (text without `Task Group`) and `#### Task Group N: text`, the group of
every task that `parseTasks` of `detect-state.js` emits is the text of the nearest header
line before it (the trimmed text of a level-3 header, `Task Group N: text` for a level-4
header), the last of several headers winning, and `Ungrouped` when there is no header
before it or when the text of that header is blank. -/
theorem detect_parseTasks_groups (ds : List DocLine) (hwf : ∀ d ∈ ds, d.wf = true) :
    (DetectState.parseTasks (joinLines (ds.map DocLine.render))).map (fun t => t.group) =
      groupsBy DocLine.headerTextOrUngrouped "Ungrouped".toList ds := by
  rw [detect_parseTasks_joinLines]
  · exact detect_groups_loop ds hwf none
  · intro m hm
    obtain ⟨d, hd, rfl⟩ := List.mem_map.mp hm
    exact render_no_newline d (hwf d hd)

/-- C2 at the scenario of the specification: the groups of its three tasks. -/
theorem detect_parseTasks_groups_witness :
    (∀ d ∈ [DocLine.h3 "Database Layer".toList, .plain "- [x] 1.1 Create model".toList,
        .plain "- [ ] 1.2 Add migration".toList, .h4 "2".toList "API".toList,
        .plain "- [ ] 2.1 Build endpoint".toList], d.wf = true) ∧
    (DetectState.parseTasks (joinLines
        ([DocLine.h3 "Database Layer".toList, .plain "- [x] 1.1 Create model".toList,
          .plain "- [ ] 1.2 Add migration".toList, .h4 "2".toList "API".toList,
          .plain "- [ ] 2.1 Build endpoint".toList].map DocLine.render))).map
        (fun t => t.group) =
      groupsBy DocLine.headerTextOrUngrouped "Ungrouped".toList
        [DocLine.h3 "Database Layer".toList, .plain "- [x] 1.1 Create model".toList,
          .plain "- [ ] 1.2 Add migration".toList, .h4 "2".toList "API".toList,
          .plain "- [ ] 2.1 Build endpoint".toList] :=
  ⟨by decide, detect_parseTasks_groups _ (by decide)⟩

/-- C2 as it is written fails on a header without text: after the line `### ` the task
`- [ ] 1.1 a` is in the group `Ungrouped`, not in the group with the empty name that the
trimmed text of the header is. -/
theorem detect_parseTasks_groups_blank_header :
    (∀ d ∈ [DocLine.h3 [], .plain "- [ ] 1.1 a".toList], d.wf = true) ∧
    (DetectState.parseTasks (joinLines
        ([DocLine.h3 [], .plain "- [ ] 1.1 a".toList].map DocLine.render))).map
        (fun t => t.group) = ["Ungrouped".toList] ∧
    groupsBy DocLine.headerText "Ungrouped".toList
        [DocLine.h3 [], .plain "- [ ] 1.1 a".toList] = [[]] ∧
    (DetectState.parseTasks (joinLines
        ([DocLine.h3 [], .plain "- [ ] 1.1 a".toList].map DocLine.render))).map
        (fun t => t.group) ≠
      groupsBy DocLine.headerText "Ungrouped".toList
        [DocLine.h3 [], .plain "- [ ] 1.1 a".toList] := by
  decide

/-- The scenario of the specification, evaluated: three tasks, with their groups. -/
theorem detect_parseTasks_scenario :
    DetectState.parseTasks ("### Database Layer\n- [x] 1.1 Create model\n" ++
        "- [ ] 1.2 Add migration\n#### Task Group 2: API\n- [ ] 2.1 Build endpoint").toList =
      [{ id := "1.1".toList, description := "Create model".toList, completed := true,
         group := "Database Layer".toList, indent := 0 },
       { id := "1.2".toList, description := "Add migration".toList, completed := false,
         group := "Database Layer".toList, indent := 0 },
       { id := "2.1".toList, description := "Build endpoint".toList, completed := false,
         group := "Task Group 2: API".toList, indent := 0 }] := by
  decide

theorem filter_incomplete_nil (ts : List DetectState.Task)
    (h : ts.filter (fun t => !t.completed) = []) : ∀ t ∈ ts, t.completed = true := by
  intro t ht
  have := List.filter_eq_nil_iff.mp h t ht
  simpa using this

theorem filter_incomplete_cons (ts : List DetectState.Task) (t : DetectState.Task)
    (rest : List DetectState.Task) (h : ts.filter (fun t => !t.completed) = t :: rest) :
    ∃ pre post, ts = pre ++ t :: post ∧ (∀ u ∈ pre, u.completed = true) ∧
      t.completed = false := by
  induction ts with
  | nil => exact absurd h (by simp)
  | cons a ts ih =>
    by_cases ha : a.completed = true
    · have h' : ts.filter (fun t => !t.completed) = t :: rest := by
        simpa [List.filter, ha] using h
      obtain ⟨pre, post, e, hpre, ht⟩ := ih h'
      refine ⟨a :: pre, post, by simp [e], ?_, ht⟩
      intro u hu
      rcases List.mem_cons.mp hu with rfl | hu
      · exact ha
      · exact hpre u hu
    · have ha' : a.completed = false := by simpa using ha
      have h' : a :: ts.filter (fun t => !t.completed) = t :: rest := by
        simpa [List.filter, ha'] using h
      have e : a = t := (List.cons.inj h').1
      subst e
      exact ⟨[], ts, rfl, fun u hu => absurd hu (List.not_mem_nil u), ha'⟩

/-- C3.  `detectState` of `detect-state.js` is decided by the first absent artifact, in the
order idea, requirements, specification, tasks, whatever the later flags and the tasks
document are; `nextTask` is null in the four cases; and the result is
`spec-initializer`/`Not Started` exactly when the idea document is absent. -/
theorem detectState_first_absent :
    (∀ (req spec tasks : Bool) (content : Str),
      DetectState.detectState
          { hasRawIdea := false, hasRequirements := req, hasSpec := spec, hasTasks := tasks,
            tasksContent := content } =
        { nextAgent := some "spec-initializer".toList, nextTask := none,
          projectStatus := some "Not Started".toList,
          summary := "Need to initialize spec folder".toList }) ∧
    (∀ (spec tasks : Bool) (content : Str),
      DetectState.detectState
          { hasRawIdea := true, hasRequirements := false, hasSpec := spec, hasTasks := tasks,
            tasksContent := content } =
        { nextAgent := some "spec-shaper".toList, nextTask := none,
          projectStatus := some "Planning".toList,
          summary := "Need to gather requirements".toList }) ∧
    (∀ (tasks : Bool) (content : Str),
      DetectState.detectState
          { hasRawIdea := true, hasRequirements := true, hasSpec := false, hasTasks := tasks,
            tasksContent := content } =
        { nextAgent := some "spec-writer".toList, nextTask := none,
          projectStatus := some "Planning".toList,
          summary := "Need to write specification".toList }) ∧
    (∀ content : Str,
      DetectState.detectState
          { hasRawIdea := true, hasRequirements := true, hasSpec := true, hasTasks := false,
            tasksContent := content } =
        { nextAgent := some "tasks-list-creator".toList, nextTask := none,
          projectStatus := some "Planning".toList,
          summary := "Need to create tasks list".toList }) ∧
    (∀ f : DetectState.SpecFolder,
      ((DetectState.detectState f).nextAgent = some "spec-initializer".toList ∧
        (DetectState.detectState f).projectStatus = some "Not Started".toList) ↔
        f.hasRawIdea = false) := by
  refine ⟨fun _ _ _ _ => rfl, fun _ _ _ => rfl, fun _ _ => rfl, fun _ => rfl, ?_⟩
  intro f
  obtain ⟨idea, req, spec, tasks, content⟩ := f
  cases idea
  · exact ⟨fun _ => rfl, fun _ => ⟨rfl, rfl⟩⟩
  · constructor
    · intro h
      exfalso
      have h1 := h.1
      cases req
      · have e : (DetectState.detectState
            { hasRawIdea := true, hasRequirements := false, hasSpec := spec,
              hasTasks := tasks, tasksContent := content }).nextAgent =
            some "spec-shaper".toList := rfl
        rw [e] at h1
        exact absurd h1 (by decide)
      · cases spec
        · have e : (DetectState.detectState
              { hasRawIdea := true, hasRequirements := true, hasSpec := false,
                hasTasks := tasks, tasksContent := content }).nextAgent =
              some "spec-writer".toList := rfl
          rw [e] at h1
          exact absurd h1 (by decide)
        · cases tasks
          · have e : (DetectState.detectState
                { hasRawIdea := true, hasRequirements := true, hasSpec := true,
                  hasTasks := false, tasksContent := content }).nextAgent =
                some "tasks-list-creator".toList := rfl
            rw [e] at h1
            exact absurd h1 (by decide)
          · simp only [DetectState.detectState] at h1
            cases hf : (DetectState.parseTasks content).filter (fun t => !t.completed) with
            | nil =>
              simp only [hf] at h1
              have h2 : some "complete".toList = some "spec-initializer".toList := h1
              exact absurd h2 (by decide)
            | cons t rest =>
              simp only [hf] at h1
              have h2 : some "implementer".toList = some "spec-initializer".toList := h1
              exact absurd h2 (by decide)
    · intro h
      have h2 : true = false := h
      exact absurd h2 (by decide)

/-- C4.  With the four artifacts present, `detectState` of `detect-state.js` gives, for
every tasks document: `complete`/`Done`, no next task and `All tasks completed!` when
`parseTasks` yields no incomplete task; and otherwise `implementer`/`In Progress`, with
for next task the first task of the parsed sequence that is not completed (all the tasks
before it are) and the summary `Next task: <id> - <description>` of that task. -/
theorem detectState_all_present (content : Str) :
    ((∀ t ∈ DetectState.parseTasks content, t.completed = true) ∧
      DetectState.detectState
          { hasRawIdea := true, hasRequirements := true, hasSpec := true, hasTasks := true,
            tasksContent := content } =
        { nextAgent := some "complete".toList, nextTask := none,
          projectStatus := some "Done".toList,
          summary := "All tasks completed!".toList }) ∨
    (∃ (pre : List DetectState.Task) (t : DetectState.Task) (post : List DetectState.Task),
      DetectState.parseTasks content = pre ++ t :: post ∧
      (∀ u ∈ pre, u.completed = true) ∧ t.completed = false ∧
      DetectState.detectState
          { hasRawIdea := true, hasRequirements := true, hasSpec := true, hasTasks := true,
            tasksContent := content } =
        { nextAgent := some "implementer".toList, nextTask := some t,
          projectStatus := some "In Progress".toList,
          summary := "Next task: ".toList ++ t.id ++ " - ".toList ++ t.description }) := by
  cases hf : (DetectState.parseTasks content).filter (fun t => !t.completed) with
  | nil =>
    left
    refine ⟨filter_incomplete_nil _ hf, ?_⟩
    simp only [DetectState.detectState, hf]
    rfl
  | cons t rest =>
    right
    obtain ⟨pre, post, e, hpre, ht⟩ := filter_incomplete_cons _ t rest hf
    refine ⟨pre, t, post, e, hpre, ht, ?_⟩
    simp only [DetectState.detectState, hf]
    rfl

/-- C4 at the scenario of the specification: `implementer`, with the task `1.2` next. -/
theorem detectState_scenario :
    DetectState.detectState
        { hasRawIdea := true, hasRequirements := true, hasSpec := true, hasTasks := true,
          tasksContent := ("### Database Layer\n- [x] 1.1 Create model\n" ++
            "- [ ] 1.2 Add migration\n#### Task Group 2: API\n- [ ] 2.1 Build endpoint").toList } =
      { nextAgent := some "implementer".toList,
        nextTask := some (DetectState.Task.mk "1.2".toList "Add migration".toList false
          "Database Layer".toList 0),
        projectStatus := some "In Progress".toList,
        summary := "Next task: 1.2 - Add migration".toList } := by
  decide

/-! ### The batches of sync-to-tracker.js -/

theorem trackerRequest_isSome (h : Tracker.HttpResult)
    (hs : (Tracker.trackerRequest h).isSome = true) :
    Tracker.trackerRequest h = some { success := h.is2xx, status :=
      match h with
      | .response statusCode _ => statusCode
      | .requestError => 0 } ∧ (h.is2xx = true ∨ h.isNon2xx = true) ∧
      ¬ (h.is2xx = true ∧ h.isNon2xx = true) := by
  cases h with
  | requestError => exact absurd hs (by decide)
  | response statusCode bodyIsJson =>
    cases bodyIsJson with
    | false =>
      have hn : (Tracker.trackerRequest (.response statusCode false)).isSome = false := rfl
      rw [hn] at hs
      exact absurd hs (by decide)
    | true =>
      by_cases h2 : 200 ≤ statusCode ∧ statusCode < 300
      · simp [Tracker.trackerRequest, Tracker.HttpResult.is2xx, Tracker.HttpResult.isNon2xx, h2]
      · simp [Tracker.trackerRequest, Tracker.HttpResult.is2xx, Tracker.HttpResult.isNon2xx, h2]

/-- The loop of a batch when every request gets a response that parses: it runs to its end,
posts one body per item, in order, and counts the 2xx and the other answers. -/
theorem syncLoop_counted {α β : Type} (payload : α → β) (remote : Nat → Tracker.HttpResult)
    (items : List α) (synced failed : Nat) (sent : List β)
    (h : ∀ i, i < items.length → (Tracker.trackerRequest (remote (sent.length + i))).isSome = true) :
    (Tracker.syncLoop payload remote items synced failed sent).result =
        .counted
          (synced + (Tracker.answers remote sent.length items.length).countP
            Tracker.HttpResult.is2xx)
          (failed + (Tracker.answers remote sent.length items.length).countP
            Tracker.HttpResult.isNon2xx) ∧
      (Tracker.syncLoop payload remote items synced failed sent).sent =
        sent ++ items.map payload := by
  induction items generalizing synced failed sent with
  | nil => simp [Tracker.syncLoop, Tracker.answers]
  | cons item items ih =>
    have h0 := h 0 (by simp)
    simp only [Nat.add_zero] at h0
    obtain ⟨hreq, hor, hnot⟩ := trackerRequest_isSome _ h0
    have hrest : ∀ i, i < items.length →
        (Tracker.trackerRequest (remote ((sent ++ [payload item]).length + i))).isSome = true := by
      intro i hi
      have := h (i + 1) (by simp; omega)
      have e : (sent ++ [payload item]).length + i = sent.length + (i + 1) := by
        simp
        omega
      rw [e]
      exact this
    have hans : Tracker.answers remote sent.length (items.length + 1) =
        remote sent.length :: Tracker.answers remote (sent ++ [payload item]).length
          items.length := by
      simp [Tracker.answers, List.range'_succ]
    simp only [Tracker.syncLoop, hreq, List.length_cons, hans, List.countP_cons]
    cases h2 : (remote sent.length).is2xx with
    | true =>
      have hn : (remote sent.length).isNon2xx = false := by
        cases hn : (remote sent.length).isNon2xx with
        | false => rfl
        | true => exact absurd ⟨h2, hn⟩ hnot
      obtain ⟨ih1, ih2⟩ := ih (synced + 1) failed (sent ++ [payload item]) hrest
      simp only [if_true, hn, ih1, ih2]
      refine ⟨?_, by simp⟩
      simp
      omega
    | false =>
      have hn : (remote sent.length).isNon2xx = true := by
        rcases hor with h' | h'
        · rw [h2] at h'
          exact absurd h' (by decide)
        · exact h'
      obtain ⟨ih1, ih2⟩ := ih synced (failed + 1) (sent ++ [payload item]) hrest
      simp only [Bool.false_eq_true, if_false, hn, ih1, ih2]
      refine ⟨?_, by simp⟩
      simp
      omega

/-- The loop of a batch when a request is rejected: the loop ends there, with the bodies
of the items up to that one posted and nothing counted. -/
theorem syncLoop_threw {α β : Type} (payload : α → β) (remote : Nat → Tracker.HttpResult)
    (items : List α) (synced failed : Nat) (sent : List β) (i : Nat) (hi : i < items.length)
    (hbefore : ∀ j, j < i →
      (Tracker.trackerRequest (remote (sent.length + j))).isSome = true)
    (hrej : Tracker.trackerRequest (remote (sent.length + i)) = none) :
    (Tracker.syncLoop payload remote items synced failed sent).result = .threw ∧
      (Tracker.syncLoop payload remote items synced failed sent).sent =
        sent ++ (items.take (i + 1)).map payload := by
  induction items generalizing synced failed sent i with
  | nil => exact absurd hi (by simp)
  | cons item items ih =>
    cases i with
    | zero =>
      simp only [Nat.add_zero] at hrej
      simp [Tracker.syncLoop, hrej]
    | succ i =>
      have h0 := hbefore 0 (by omega)
      simp only [Nat.add_zero] at h0
      obtain ⟨hreq, _, _⟩ := trackerRequest_isSome _ h0
      have hi' : i < items.length := by
        simp at hi
        omega
      have hb' : ∀ j, j < i → (Tracker.trackerRequest
          (remote ((sent ++ [payload item]).length + j))).isSome = true := by
        intro j hj
        have := hbefore (j + 1) (by omega)
        have e : (sent ++ [payload item]).length + j = sent.length + (j + 1) := by
          simp
          omega
        rw [e]
        exact this
      have hr' : Tracker.trackerRequest (remote ((sent ++ [payload item]).length + i)) =
          none := by
        have e : (sent ++ [payload item]).length + i = sent.length + (i + 1) := by
          simp
          omega
        rw [e]
        exact hrej
      simp only [Tracker.syncLoop, hreq]
      split
      · obtain ⟨ih1, ih2⟩ := ih (synced + 1) failed (sent ++ [payload item]) i hi' hb' hr'
        exact ⟨ih1, by simp [ih2]⟩
      · obtain ⟨ih1, ih2⟩ := ih synced (failed + 1) (sent ++ [payload item]) i hi' hb' hr'
        exact ⟨ih1, by simp [ih2]⟩

theorem countP_2xx_add_non2xx (l : List Tracker.HttpResult)
    (h : ∀ a ∈ l, (Tracker.trackerRequest a).isSome = true) :
    l.countP Tracker.HttpResult.is2xx + l.countP Tracker.HttpResult.isNon2xx = l.length := by
  induction l with
  | nil => rfl
  | cons a l ih =>
    obtain ⟨_, hor, hnot⟩ := trackerRequest_isSome a (h a (List.mem_cons_self a l))
    have ih' := ih (fun b hb => h b (List.mem_cons_of_mem a hb))
    simp only [List.countP_cons, List.length_cons]
    cases h2 : a.is2xx <;> cases hn : a.isNon2xx
    · rcases hor with h' | h'
      · rw [h2] at h'
        exact absurd h' (by decide)
      · rw [hn] at h'
        exact absurd h' (by decide)
    · simp
      omega
    · simp
      omega
    · exact absurd ⟨h2, hn⟩ hnot

/-- C5.  `syncTasks` of `sync-to-tracker.js` on a tasks document with N >= 1 tasks, when
every request gets a result (the promise of `trackerRequest` resolves, 2xx or not): one
request is posted per task, in the order of the document; the batch ends with `synced` the
number of 2xx answers and `failed` the number of the other answers; their sum is N; and
when exactly one answer is not 2xx the counters are N - 1 and 1. -/
theorem syncTasks_counters (specName : Str) (tasksFile : Option Str) (sprintId : Option Str)
    (remote : Nat → Tracker.HttpResult)
    (hN : 1 ≤ (Tracker.parseTasks tasksFile).length)
    (hres : ∀ i, i < (Tracker.parseTasks tasksFile).length →
      (Tracker.trackerRequest (remote i)).isSome = true) :
    (Tracker.syncTasks specName tasksFile sprintId remote).sent =
        (Tracker.parseTasks tasksFile).map (Tracker.taskPayload specName sprintId) ∧
      (Tracker.syncTasks specName tasksFile sprintId remote).result =
        .counted
          ((Tracker.answers remote 0 (Tracker.parseTasks tasksFile).length).countP
            Tracker.HttpResult.is2xx)
          ((Tracker.answers remote 0 (Tracker.parseTasks tasksFile).length).countP
            Tracker.HttpResult.isNon2xx) ∧
      (Tracker.answers remote 0 (Tracker.parseTasks tasksFile).length).countP
          Tracker.HttpResult.is2xx +
        (Tracker.answers remote 0 (Tracker.parseTasks tasksFile).length).countP
          Tracker.HttpResult.isNon2xx = (Tracker.parseTasks tasksFile).length ∧
      ((Tracker.answers remote 0 (Tracker.parseTasks tasksFile).length).countP
          Tracker.HttpResult.isNon2xx = 1 →
        (Tracker.syncTasks specName tasksFile sprintId remote).result =
          .counted ((Tracker.parseTasks tasksFile).length - 1) 1) := by
  have hloop := syncLoop_counted (Tracker.taskPayload specName sprintId) remote
    (Tracker.parseTasks tasksFile) 0 0 [] (by simpa using hres)
  have hsum := countP_2xx_add_non2xx
    (Tracker.answers remote 0 (Tracker.parseTasks tasksFile).length) (by
      intro a ha
      simp only [Tracker.answers, List.mem_map, List.mem_range'_1] at ha
      obtain ⟨i, hi, rfl⟩ := ha
      exact hres i (by omega))
  have hlen : (Tracker.answers remote 0 (Tracker.parseTasks tasksFile).length).length =
      (Tracker.parseTasks tasksFile).length := by
    simp [Tracker.answers]
  have hsync : Tracker.syncTasks specName tasksFile sprintId remote =
      Tracker.syncLoop (Tracker.taskPayload specName sprintId) remote
        (Tracker.parseTasks tasksFile) 0 0 [] := by
    simp only [Tracker.syncTasks, Tracker.syncTaskList]
    cases hp : Tracker.parseTasks tasksFile with
    | nil =>
      rw [hp] at hN
      exact absurd hN (by decide)
    | cons t ts => rfl
  simp only [List.length_nil, Nat.zero_add, List.nil_append] at hloop
  rw [hsync]
  refine ⟨hloop.2, hloop.1, by rw [hsum, hlen], ?_⟩
  intro h1
  rw [hloop.1, h1]
  rw [h1, hlen] at hsum
  have e : (Tracker.answers remote 0 (Tracker.parseTasks tasksFile).length).countP
      Tracker.HttpResult.is2xx = (Tracker.parseTasks tasksFile).length - 1 := by omega
  rw [e]

/-- C5 on three tasks, the second of which gets a 500: three requests, two synced, one
failed. -/
theorem syncTasks_counters_witness :
    (1 ≤ (Tracker.parseTasks (some "- [x] 1.1 a\n- [ ] 1.2 b\n- [ ] 1.3 c".toList)).length ∧
      ∀ i, i < (Tracker.parseTasks
          (some "- [x] 1.1 a\n- [ ] 1.2 b\n- [ ] 1.3 c".toList)).length →
        (Tracker.trackerRequest ((fun n : Nat =>
          if n = 1 then Tracker.HttpResult.response 500 true
          else Tracker.HttpResult.response 200 true) i)).isSome = true) ∧
    (Tracker.syncTasks "spec".toList (some "- [x] 1.1 a\n- [ ] 1.2 b\n- [ ] 1.3 c".toList)
        none (fun n : Nat =>
          if n = 1 then Tracker.HttpResult.response 500 true
          else Tracker.HttpResult.response 200 true)).result = .counted 2 1 ∧
    (Tracker.syncTasks "spec".toList (some "- [x] 1.1 a\n- [ ] 1.2 b\n- [ ] 1.3 c".toList)
        none (fun n : Nat =>
          if n = 1 then Tracker.HttpResult.response 500 true
          else Tracker.HttpResult.response 200 true)).sent.length = 3 :=
  have h := syncTasks_counters "spec".toList
    (some "- [x] 1.1 a\n- [ ] 1.2 b\n- [ ] 1.3 c".toList) none
    (fun n : Nat =>
      if n = 1 then Tracker.HttpResult.response 500 true
      else Tracker.HttpResult.response 200 true) (by decide) (by decide)
  ⟨⟨by decide, by decide⟩, h.2.2.2 (by decide), by rw [h.1]; decide⟩

/-- C6, as the code has it.  In `syncTasks` and `syncTests` of `sync-to-tracker.js`, when
the requests before the one numbered `i` get a result and the request for the item
numbered `i` is rejected (the request errors or the body of the response does not parse),
the rejection ends the batch: the function throws, so that item is not counted in
`failed`, and the bodies posted are those of the items up to that one, in order, and
no other. -/
theorem sync_rejection_ends_batch (specName : Str) (sprintId featureId : Option Str)
    (remote : Nat → Tracker.HttpResult) (tasks : List Tracker.Task)
    (tests : List Tracker.Test) (i : Nat)
    (hitasks : i < tasks.length) (hitests : i < tests.length)
    (hbefore : ∀ j, j < i → (Tracker.trackerRequest (remote j)).isSome = true)
    (hrej : Tracker.trackerRequest (remote i) = none) :
    ((Tracker.syncTaskList specName sprintId remote tasks).result = .threw ∧
      (Tracker.syncTaskList specName sprintId remote tasks).sent =
        (tasks.take (i + 1)).map (Tracker.taskPayload specName sprintId)) ∧
    ((Tracker.syncTestList specName featureId remote tests).result = .threw ∧
      (Tracker.syncTestList specName featureId remote tests).sent =
        (tests.take (i + 1)).map (Tracker.testPayload specName featureId)) := by
  constructor
  · cases tasks with
    | nil => exact absurd hitasks (by simp)
    | cons t ts =>
      have h := syncLoop_threw (Tracker.taskPayload specName sprintId) remote (t :: ts) 0 0 []
        i hitasks (by simpa using hbefore) (by simpa using hrej)
      simpa [Tracker.syncTaskList] using h
  · cases tests with
    | nil => exact absurd hitests (by simp)
    | cons t ts =>
      have h := syncLoop_threw (Tracker.testPayload specName featureId) remote (t :: ts) 0 0 []
        i hitests (by simpa using hbefore) (by simpa using hrej)
      simpa [Tracker.syncTestList] using h

/-- C6 as the code has it, on three tasks and two tests, when the second request errors:
two bodies are posted and the batch throws. -/
theorem sync_rejection_ends_batch_witness :
    (Tracker.trackerRequest ((fun n : Nat =>
        if n = 1 then Tracker.HttpResult.requestError
        else Tracker.HttpResult.response 200 true) 1) = none) ∧
    ((Tracker.syncTaskList "spec".toList none (fun n : Nat =>
          if n = 1 then Tracker.HttpResult.requestError
          else Tracker.HttpResult.response 200 true)
          (Tracker.parseTasks (some "- [ ] 1.1 a\n- [ ] 1.2 b\n- [ ] 1.3 c".toList))).result =
        .threw ∧
      (Tracker.syncTaskList "spec".toList none (fun n : Nat =>
          if n = 1 then Tracker.HttpResult.requestError
          else Tracker.HttpResult.response 200 true)
          (Tracker.parseTasks (some "- [ ] 1.1 a\n- [ ] 1.2 b\n- [ ] 1.3 c".toList))).sent =
        ((Tracker.parseTasks (some "- [ ] 1.1 a\n- [ ] 1.2 b\n- [ ] 1.3 c".toList)).take
          (1 + 1)).map (Tracker.taskPayload "spec".toList none)) ∧
    ((Tracker.syncTestList "spec".toList none (fun n : Nat =>
          if n = 1 then Tracker.HttpResult.requestError
          else Tracker.HttpResult.response 200 true)
          [Tracker.Test.mk "TEST-1".toList "a".toList "Test from General".toList
              "pending".toList "manual".toList,
            Tracker.Test.mk "TEST-2".toList "b".toList "Test from General".toList
              "pending".toList "manual".toList]).result = .threw ∧
      (Tracker.syncTestList "spec".toList none (fun n : Nat =>
          if n = 1 then Tracker.HttpResult.requestError
          else Tracker.HttpResult.response 200 true)
          [Tracker.Test.mk "TEST-1".toList "a".toList "Test from General".toList
              "pending".toList "manual".toList,
            Tracker.Test.mk "TEST-2".toList "b".toList "Test from General".toList
              "pending".toList "manual".toList]).sent =
        ([Tracker.Test.mk "TEST-1".toList "a".toList "Test from General".toList
              "pending".toList "manual".toList,
            Tracker.Test.mk "TEST-2".toList "b".toList "Test from General".toList
              "pending".toList "manual".toList].take (1 + 1)).map
          (Tracker.testPayload "spec".toList none)) :=
  ⟨by decide,
    sync_rejection_ends_batch "spec".toList none none (fun n : Nat =>
      if n = 1 then Tracker.HttpResult.requestError
      else Tracker.HttpResult.response 200 true)
      (Tracker.parseTasks (some "- [ ] 1.1 a\n- [ ] 1.2 b\n- [ ] 1.3 c".toList))
      [Tracker.Test.mk "TEST-1".toList "a".toList "Test from General".toList
          "pending".toList "manual".toList,
        Tracker.Test.mk "TEST-2".toList "b".toList "Test from General".toList
          "pending".toList "manual".toList] 1 (by decide) (by decide) (by decide) (by decide)⟩

/-- C6 as it is written fails: on two tasks, when the request for the first errors and
the remote would answer 200 to any later request, `syncTasks` throws instead of counting a
failure, and the second task is never posted; the same holds for `syncTests` on two
tests. -/
theorem sync_rejection_not_contained :
    (Tracker.parseTasks (some "- [ ] 1.1 a\n- [ ] 1.2 b".toList)).length = 2 ∧
    (Tracker.syncTasks "spec".toList (some "- [ ] 1.1 a\n- [ ] 1.2 b".toList) none
        (fun n : Nat =>
          if n = 0 then Tracker.HttpResult.requestError
          else Tracker.HttpResult.response 200 true)).result = .threw ∧
    (Tracker.syncTasks "spec".toList (some "- [ ] 1.1 a\n- [ ] 1.2 b".toList) none
        (fun n : Nat =>
          if n = 0 then Tracker.HttpResult.requestError
          else Tracker.HttpResult.response 200 true)).sent.length = 1 ∧
    (Tracker.syncTestList "spec".toList none
        (fun n : Nat =>
          if n = 0 then Tracker.HttpResult.requestError
          else Tracker.HttpResult.response 200 true)
        [Tracker.Test.mk "TEST-1".toList "a".toList "Test from General".toList
            "pending".toList "manual".toList,
          Tracker.Test.mk "TEST-2".toList "b".toList "Test from General".toList
            "pending".toList "manual".toList]).result = .threw ∧
    (Tracker.syncTestList "spec".toList none
        (fun n : Nat =>
          if n = 0 then Tracker.HttpResult.requestError
          else Tracker.HttpResult.response 200 true)
        [Tracker.Test.mk "TEST-1".toList "a".toList "Test from General".toList
            "pending".toList "manual".toList,
          Tracker.Test.mk "TEST-2".toList "b".toList "Test from General".toList
            "pending".toList "manual".toList]).sent.length = 1 := by
  decide

/-- C8.  The phase `syncFeature` of `sync-to-tracker.js` posts depends on the existence of
`spec.md`, `tasks.md` and `test-plan.md` only: `testing` if `test-plan.md` exists, else
`development` if `tasks.md` exists, else `spec` if `spec.md` exists, else `raw-idea`;
and that is the phase of the body posted, whenever one is posted. -/
theorem featurePhase_highest_artifact :
    (∀ hasSpec hasTasks : Bool,
      Tracker.featurePhase hasSpec hasTasks true = "testing".toList) ∧
    (∀ hasSpec : Bool, Tracker.featurePhase hasSpec true false = "development".toList) ∧
    Tracker.featurePhase true false false = "spec".toList ∧
    Tracker.featurePhase false false false = "raw-idea".toList ∧
    (∀ (c : Char) (s : Str) (metadata : Tracker.Metadata) (hasSpec hasTasks hasTestPlan : Bool),
      Tracker.syncFeatureRequest (some (c :: s)) metadata hasSpec hasTasks hasTestPlan =
        some { external_id := metadata.externalId, project_id := c :: s,
               title := metadata.title, description := metadata.description,
               phase :=
                 if hasTestPlan then "testing".toList
                 else if hasTasks then "development".toList
                 else if hasSpec then "spec".toList
                 else "raw-idea".toList }) := by
  refine ⟨?_, ?_, rfl, rfl, ?_⟩
  · intro a b
    cases a <;> cases b <;> rfl
  · intro a
    cases a <;> rfl
  · intro c s metadata a b d
    cases a <;> cases b <;> cases d <;> rfl

/-! ### The tasks of sync-to-tracker.js -/

theorem tracker_parseStep_eq (st : Tracker.ParseState) (line : Str) :
    (Tracker.lineFields line = none ∧
      (Tracker.parseStep st line).tasks = st.tasks ∧
      (Tracker.parseStep st line).order = st.order) ∨
    (∃ (t : Tracker.Task) (f : Str × Str × Bool), Tracker.lineFields line = some f ∧
      (t.external_id, t.title, t.status == "done".toList) = f ∧
      t.order = st.order + 1 ∧
      (Tracker.parseStep st line).tasks = st.tasks ++ [t] ∧
      (Tracker.parseStep st line).order = st.order + 1) := by
  simp only [Tracker.parseStep, Tracker.lineFields]
  split
  · rename_i indent checked taskId description _
    right
    refine ⟨_, _, rfl, ?_, rfl, rfl, rfl⟩
    by_cases hc : (checked == ['x']) = true
    · simp [hc]
    · have hc' : (checked == ['x']) = false := by simpa using hc
      simp only [hc', Bool.false_eq_true, if_false, Prod.mk.injEq, true_and]
      decide
  · left
    exact ⟨rfl, rfl, rfl⟩

/-- The loop of `parseTasks` of `sync-to-tracker.js`: one task for each line the pattern
matches, in the order of the lines, numbered from the order reached so far. -/
theorem tracker_parseLines_spec (lines : List Str) (st : Tracker.ParseState) :
    (Tracker.parseLines st lines).tasks.map (fun t => t.order) =
        st.tasks.map (fun t => t.order) ++
          List.range' (st.order + 1) (lines.filterMap Tracker.lineFields).length ∧
      (Tracker.parseLines st lines).order =
        st.order + (lines.filterMap Tracker.lineFields).length ∧
      (Tracker.parseLines st lines).tasks.map
          (fun t => (t.external_id, t.title, t.status == "done".toList)) =
        st.tasks.map (fun t => (t.external_id, t.title, t.status == "done".toList)) ++
          lines.filterMap Tracker.lineFields := by
  induction lines generalizing st with
  | nil => simp [Tracker.parseLines]
  | cons line lines ih =>
    have hstep : Tracker.parseLines st (line :: lines) =
        Tracker.parseLines (Tracker.parseStep st line) lines := rfl
    rw [hstep]
    obtain ⟨ih1, ih2, ih3⟩ := ih (Tracker.parseStep st line)
    rcases tracker_parseStep_eq st line with ⟨hf, ht, ho⟩ | ⟨t, f, hf, hfe, hto, ht, ho⟩
    · rw [ih1, ih2, ih3, ht, ho]
      simp [List.filterMap_cons, hf]
    · rw [ih1, ih2, ih3, ht, ho]
      refine ⟨?_, ?_, ?_⟩
      · simp only [List.filterMap_cons, hf, List.length_cons, List.map_append, List.map_cons,
          List.map_nil, hto, List.append_assoc, List.singleton_append, List.range'_succ]
      · simp only [List.filterMap_cons, hf, List.length_cons]
        omega
      · simp only [List.filterMap_cons, hf, List.map_append, List.map_cons, List.map_nil, hfe,
          List.append_assoc, List.singleton_append]

/-- C9.  The tasks `parseTasks` of `sync-to-tracker.js` returns are numbered 1, 2, ..., n
in `order`, the task at index k having order k + 1, and they are the lines the task pattern
matches, one task per line, in the order of the lines (two lines with the same id give
two tasks). -/
theorem tracker_parseTasks_order (tasksFile : Option Str) :
    (Tracker.parseTasks tasksFile).map (fun t => t.order) =
        List.range' 1 (Tracker.parseTasks tasksFile).length ∧
      (∀ k : Nat, ((Tracker.parseTasks tasksFile).map (fun t => t.order))[k]? =
        if k < (Tracker.parseTasks tasksFile).length then some (k + 1) else none) ∧
      (∀ content : Str,
        (Tracker.parseTasks (some content)).map
            (fun t => (t.external_id, t.title, t.status == "done".toList)) =
          (splitLines content).filterMap Tracker.lineFields) := by
  have h1 : (Tracker.parseTasks tasksFile).map (fun t => t.order) =
      List.range' 1 (Tracker.parseTasks tasksFile).length := by
    cases tasksFile with
    | none => rfl
    | some content =>
      obtain ⟨ho, _, hf⟩ := tracker_parseLines_spec (splitLines content)
        { tasks := [], currentGroup := none, order := 0 }
      have hlen := congrArg List.length hf
      simp only [List.map_nil, List.nil_append, List.length_map] at hlen
      simp only [Tracker.parseTasks]
      rw [ho, hlen]
      rfl
  refine ⟨h1, ?_, ?_⟩
  · intro k
    by_cases hk : k < (Tracker.parseTasks tasksFile).length
    · rw [if_pos hk, h1, List.getElem?_range' 1 1 hk]
      simp
      omega
    · rw [if_neg hk]
      exact List.getElem?_eq_none (by simpa using hk)
  · intro content
    obtain ⟨_, _, hf⟩ := tracker_parseLines_spec (splitLines content)
      { tasks := [], currentGroup := none, order := 0 }
    simpa [Tracker.parseTasks] using hf

/-- C9 at the scenario of the specification: the ids and orders of its three tasks. -/
theorem tracker_parseTasks_scenario :
    (Tracker.parseTasks (some ("### Database Layer\n- [x] 1.1 Create model\n" ++
        "- [ ] 1.2 Add migration\n#### Task Group 2: API\n- [ ] 2.1 Build endpoint").toList)).map
        (fun t => (t.external_id, t.order)) =
      [("1.1".toList, 1), ("1.2".toList, 2), ("2.1".toList, 3)] := by
  decide

/-! ### The two task patterns -/

theorem starRun_some {α : Type} (p : Char → Bool) (k : Str → Option α) (s : Str) (r : α)
    (h : starRun p k s = some r) : ∃ s', k s' = some r := by
  induction s with
  | nil => exact ⟨[], h⟩
  | cons c s ih =>
    simp only [starRun] at h
    split at h
    · split at h
      · rename_i r' hr'
        simp only [Option.some.injEq] at h
        subst h
        exact ih hr'
      · exact ⟨c :: s, h⟩
    · exact ⟨c :: s, h⟩

/-- What `\s+(.+)$` gives when it matches: nothing left, and one more group. -/
theorem run_tail_some (caps : List Str) (s : Str) (r : Str × List Str)
    (h : (Regex.cat [.plus isSpace, .grp (.plus isDot), .eoi]).run s caps
      (fun s' caps' => some (s', caps')) = some r) :
    ∃ d, r = ([], caps ++ [d]) := by
  rw [run_cat_cons] at h
  simp only [Regex.plus, run_seq, run_cls] at h
  cases s with
  | nil => exact absurd h (by simp)
  | cons c s =>
    by_cases hc : isSpace c = true
    · simp only [hc, if_true] at h
      have h' : starRun isSpace (fun s' => (Regex.cat [.grp (.plus isDot), .eoi]).run s' caps
          (fun s' caps' => some (s', caps'))) s = some r := h
      obtain ⟨s', hs'⟩ := starRun_some _ _ _ _ h'
      rw [run_dotsEnd] at hs'
      split at hs'
      · exact ⟨s', (Option.some.inj hs').symm⟩
      · exact absurd hs' (by simp)
    · simp [hc] at h

/-- The id of `sync-to-tracker.js`, `(\d+(?:\.\d+)?)`, before something that cannot start
with a digit: digits, a period, digits when that leads to a match, and the first digits
alone otherwise. -/
theorem run_idOptional {α : Type} (k : Str → List Str → Option α)
    (hk : ∀ c s caps, isDigit c = true → k (c :: s) caps = none) (caps : List Str) (s : Str) :
    (Regex.grp (.cat [.plus isDigit, .opt (.cat [.lit '.', .plus isDigit])])).run s caps k =
      match s with
      | [] => none
      | a :: s1 =>
        if isDigit a = true then
          match
            (match s1.dropWhile isDigit with
              | e :: b :: s2 =>
                if e = '.' ∧ isDigit b = true then
                  k (s2.dropWhile isDigit)
                    (caps ++ [(a :: s1).take ((a :: s1).length - (s2.dropWhile isDigit).length)])
                else none
              | _ => none) with
          | some r => some r
          | none =>
            k (s1.dropWhile isDigit)
              (caps ++ [(a :: s1).take ((a :: s1).length - (s1.dropWhile isDigit).length)])
        else none := by
  simp only [run_grp, run_cat_cons, run_cat_nil]
  rw [run_plus_reject]
  · cases s with
    | nil => rfl
    | cons a s1 =>
      by_cases ha : isDigit a = true
      · simp only [ha, if_true, run_opt, run_cat_cons, run_cat_nil, run_lit]
        cases hd : List.dropWhile isDigit s1 with
        | nil => rfl
        | cons e r =>
          by_cases he : e = '.'
          · simp only [he, if_true, true_and]
            rw [run_plus_reject]
            · cases r with
              | nil => rfl
              | cons b s2 => simp
            · intro c s' hc
              exact hk c s' _ hc
          · cases r with
            | nil => simp [he]
            | cons b s2 => simp [he]
      · simp [ha]
  · intro c s' hc
    simp only [run_opt, run_cat_cons, run_lit, isDigit_ne_period hc, if_false]
    exact hk c s' _ hc

theorem take_sub_dropWhile_cons (p : Char → Bool) (a : Char) (s1 : Str) (ha : p a = true) :
    (a :: s1).take ((a :: s1).length - (s1.dropWhile p).length) = a :: s1.takeWhile p := by
  have h := takeWhile_append_dropWhile_length p (a :: s1)
  simp only [List.dropWhile, List.takeWhile, ha] at h
  exact h

theorem digits_no_period (l : Str) (h : ∀ x ∈ l, isDigit x = true) :
    l.contains '.' = false := by
  cases hc : l.contains '.' with
  | false => rfl
  | true =>
    have hm : '.' ∈ l := by simpa using hc
    exact absurd (h '.' hm) (by decide)

theorem take_dotted_contains (a b : Char) (s1 s2 : Str)
    (hd : s1.dropWhile isDigit = '.' :: b :: s2) :
    ((a :: s1).take ((a :: s1).length - (s2.dropWhile isDigit).length)).contains '.' =
      true := by
  have h1 := List.takeWhile_append_dropWhile isDigit s1
  have h2 := List.takeWhile_append_dropWhile isDigit s2
  rw [hd] at h1
  have e : a :: s1 = (a :: (s1.takeWhile isDigit ++ '.' :: b :: s2.takeWhile isDigit)) ++
      s2.dropWhile isDigit := by
    conv_lhs => rw [← h1]
    conv_lhs => rw [← h2]
    simp
  have ht := take_length_sub (a :: (s1.takeWhile isDigit ++ '.' :: b :: s2.takeWhile isDigit))
    (s2.dropWhile isDigit)
  rw [← e] at ht
  rw [ht]
  simp

/-- The two ids before `\s+(.+)$`: where the dotted id of `detect-state.js` matches, the
id of `sync-to-tracker.js` matches the same text; where it does not, the id of
`sync-to-tracker.js` matches nothing or digits alone. -/
theorem id_patterns_agree (caps : List Str) (s : Str) :
    ((Regex.grp (.cat [.plus isDigit, .lit '.', .plus isDigit])).run s caps
        (fun s' caps' => (Regex.cat [.plus isSpace, .grp (.plus isDot), .eoi]).run s' caps'
          (fun s' caps' => some (s', caps'))) = none ∧
      (Regex.grp (.cat [.plus isDigit, .opt (.cat [.lit '.', .plus isDigit])])).run s caps
        (fun s' caps' => (Regex.cat [.plus isSpace, .grp (.plus isDot), .eoi]).run s' caps'
          (fun s' caps' => some (s', caps'))) = none) ∨
    (∃ id d,
      (Regex.grp (.cat [.plus isDigit, .lit '.', .plus isDigit])).run s caps
        (fun s' caps' => (Regex.cat [.plus isSpace, .grp (.plus isDot), .eoi]).run s' caps'
          (fun s' caps' => some (s', caps'))) = some ([], caps ++ [id] ++ [d]) ∧
      (Regex.grp (.cat [.plus isDigit, .opt (.cat [.lit '.', .plus isDigit])])).run s caps
        (fun s' caps' => (Regex.cat [.plus isSpace, .grp (.plus isDot), .eoi]).run s' caps'
          (fun s' caps' => some (s', caps'))) = some ([], caps ++ [id] ++ [d]) ∧
      id.contains '.' = true) ∨
    (∃ id d,
      (Regex.grp (.cat [.plus isDigit, .lit '.', .plus isDigit])).run s caps
        (fun s' caps' => (Regex.cat [.plus isSpace, .grp (.plus isDot), .eoi]).run s' caps'
          (fun s' caps' => some (s', caps'))) = none ∧
      (Regex.grp (.cat [.plus isDigit, .opt (.cat [.lit '.', .plus isDigit])])).run s caps
        (fun s' caps' => (Regex.cat [.plus isSpace, .grp (.plus isDot), .eoi]).run s' caps'
          (fun s' caps' => some (s', caps'))) = some ([], caps ++ [id] ++ [d]) ∧
      id.contains '.' = false) := by
  have hK : ∀ (c : Char) (s : Str) (caps : List Str), isDigit c = true →
      (Regex.cat [.plus isSpace, .grp (.plus isDot), .eoi]).run (c :: s) caps
        (fun s' caps' => some (s', caps')) = none :=
    fun c s caps hc => run_tail_reject _ caps c s (isDigit_not_isSpace hc)
  rw [run_idDotted _ hK, run_idOptional _ hK]
  cases s with
  | nil => exact Or.inl ⟨rfl, rfl⟩
  | cons a s1 =>
    by_cases ha : isDigit a = true
    · simp only [ha, if_true]
      -- the id made of the first digits alone
      have hshort : ∀ r : Str × List Str,
          (Regex.cat [.plus isSpace, .grp (.plus isDot), .eoi]).run (s1.dropWhile isDigit)
            (caps ++ [(a :: s1).take ((a :: s1).length - (s1.dropWhile isDigit).length)])
            (fun s' caps' => some (s', caps')) = some r →
          ∃ id d, r = ([], caps ++ [id] ++ [d]) ∧ id.contains '.' = false := by
        intro r hr
        obtain ⟨d, hd⟩ := run_tail_some _ _ _ hr
        refine ⟨_, d, hd, ?_⟩
        rw [take_sub_dropWhile_cons isDigit a s1 ha]
        apply digits_no_period
        intro x hx
        rcases List.mem_cons.mp hx with rfl | hx
        · exact ha
        · exact List.mem_takeWhile_imp hx
      cases hd : List.dropWhile isDigit s1 with
      | nil =>
        left
        exact ⟨rfl, rfl⟩
      | cons e r =>
        cases r with
        | nil =>
          rw [hd] at hshort
          simp only []
          cases hT : (Regex.cat [.plus isSpace, .grp (.plus isDot), .eoi]).run [e]
              (caps ++ [(a :: s1).take ((a :: s1).length - [e].length)])
              (fun s' caps' => some (s', caps')) with
          | none =>
            left
            constructor <;> first | rfl | trivial
          | some r =>
            obtain ⟨id, d, hr, hid⟩ := hshort r hT
            right
            right
            exact ⟨id, d, by first | rfl | trivial, by rw [hr], hid⟩
        | cons b s2 =>
          by_cases hcond : e = '.' ∧ isDigit b = true
          · simp only [hcond, and_self, if_true]
            cases hD : (Regex.cat [.plus isSpace, .grp (.plus isDot), .eoi]).run
                (s2.dropWhile isDigit)
                (caps ++ [(a :: s1).take ((a :: s1).length - (s2.dropWhile isDigit).length)])
                (fun s' caps' => some (s', caps')) with
            | none =>
              left
              refine ⟨rfl, ?_⟩
              exact run_tail_reject _ _ '.' (b :: s2) (by decide)
            | some r =>
              obtain ⟨d, hd'⟩ := run_tail_some _ _ _ hD
              right
              left
              refine ⟨_, d, by rw [hd'], by rw [hd'], ?_⟩
              exact take_dotted_contains a b s1 s2 (by rw [hd, hcond.1])
          · rw [hd] at hshort
            simp only [hcond, if_false]
            cases hT : (Regex.cat [.plus isSpace, .grp (.plus isDot), .eoi]).run (e :: b :: s2)
                (caps ++ [(a :: s1).take ((a :: s1).length - (e :: b :: s2).length)])
                (fun s' caps' => some (s', caps')) with
            | none =>
              left
              constructor <;> first | rfl | trivial
            | some r =>
              obtain ⟨id, d, hr, hid⟩ := hshort r hT
              right
              right
              exact ⟨id, d, by first | rfl | trivial, by rw [hr], hid⟩
    · left
      simp [ha]

/-- The task pattern of `sync-to-tracker.js` is its head, then its id, then `\s+(.+)$`. -/
theorem tracker_reTask_run {α : Type} (k : Str → List Str → Option α) (line : Str) :
    Tracker.reTask.run line [] k =
      (Regex.cat [.grp (.star isSpace), .str "- [", .grp (.cls isBox), .lit ']',
        .star isSpace]).run line []
        (fun s caps =>
          (Regex.grp (.cat [.plus isDigit, .opt (.cat [.lit '.', .plus isDigit])])).run s caps
            (fun s' caps' =>
              (Regex.cat [.plus isSpace, .grp (.plus isDot), .eoi]).run s' caps' k)) :=
  rfl

theorem idOptional_tail_reject {α : Type} (k : Str → List Str → Option α) (c : Char) (s : Str)
    (caps : List Str) (hc : isSpace c = true) :
    (Regex.grp (.cat [.plus isDigit, .opt (.cat [.lit '.', .plus isDigit])])).run (c :: s) caps
      (fun s' caps' => (Regex.cat [.plus isSpace, .grp (.plus isDot), .eoi]).run s' caps' k) =
      none := by
  rw [run_idOptional]
  · simp [isSpace_not_isDigit hc]
  · intro d s' caps' hd
    exact run_tail_reject k caps' d s' (isDigit_not_isSpace hd)

/-- On every line, `detect-state.js` keeps what `sync-to-tracker.js` keeps when the id has
a period, and nothing otherwise. -/
theorem lineFields_agree (line : Str) :
    DetectState.lineFields line =
      (Tracker.lineFields line).filter (fun f => f.1.contains '.') := by
  simp only [DetectState.lineFields, Tracker.lineFields, Regex.matchStart, Regex.matchAt]
  rw [reTask_run, tracker_reTask_run,
    run_boxPrefix _ (fun c s caps hc => idDotted_tail_reject _ c s caps hc),
    run_boxPrefix _ (fun c s caps hc => idOptional_tail_reject _ c s caps hc)]
  by_cases hp : "- [".toList.isPrefixOf (line.dropWhile isSpace) = true
  · simp only [hp, if_true]
    cases hd : List.drop 3 (List.dropWhile isSpace line) with
    | nil => rfl
    | cons c r =>
      cases r with
      | nil => rfl
      | cons e r =>
        by_cases hcond : isBox c = true ∧ e = ']'
        · simp only [hcond, and_self, if_true]
          rcases id_patterns_agree [line.takeWhile isSpace, [c]] (r.dropWhile isSpace) with
            ⟨hD, hT⟩ | ⟨id, d, hD, hT, hid⟩ | ⟨id, d, hD, hT, hid⟩
          · rw [hD, hT]
            rfl
          · have hm : '.' ∈ id := by simpa using hid
            rw [hD, hT]
            simp [Option.filter, hm]
          · have hm : '.' ∉ id := by
              intro h
              have h' : id.contains '.' = true := by simpa using h
              rw [hid] at h'
              exact absurd h' (by decide)
            rw [hD, hT]
            simp [Option.filter, hm]
        · simp only [hcond, if_false]
          rfl
  · simp only [hp]
    rfl

theorem detect_parseStep_eq (st : DetectState.ParseState) (line : Str) :
    (DetectState.lineFields line = none ∧ (DetectState.parseStep st line).tasks = st.tasks) ∨
    (∃ (t : DetectState.Task) (f : Str × Str × Bool), DetectState.lineFields line = some f ∧
      (t.id, t.description, t.completed) = f ∧
      (DetectState.parseStep st line).tasks = st.tasks ++ [t]) := by
  simp only [DetectState.parseStep, DetectState.taskOfLine, DetectState.lineFields]
  split
  · right
    exact ⟨_, _, rfl, rfl, rfl⟩
  · left
    exact ⟨rfl, rfl⟩

/-- The loop of `parseTasks` of `detect-state.js`: one task for each line the pattern
matches, in the order of the lines. -/
theorem detect_parseLines_fields (lines : List Str) (st : DetectState.ParseState) :
    (DetectState.parseLines st lines).tasks.map (fun t => (t.id, t.description, t.completed)) =
      st.tasks.map (fun t => (t.id, t.description, t.completed)) ++
        lines.filterMap DetectState.lineFields := by
  induction lines generalizing st with
  | nil => simp [DetectState.parseLines]
  | cons line lines ih =>
    have hstep : DetectState.parseLines st (line :: lines) =
        DetectState.parseLines (DetectState.parseStep st line) lines := rfl
    rw [hstep, ih]
    rcases detect_parseStep_eq st line with ⟨hf, ht⟩ | ⟨t, f, hf, hfe, ht⟩
    · rw [ht]
      simp [List.filterMap_cons, hf]
    · rw [ht]
      simp [List.filterMap_cons, hf, hfe]

theorem filterMap_filter_option {α β : Type} (f : α → Option β) (p : β → Bool) (l : List α) :
    l.filterMap (fun x => (f x).filter p) = (l.filterMap f).filter p := by
  induction l with
  | nil => rfl
  | cons a l ih =>
    cases hf : f a with
    | none =>
      have e : (fun x => (f x).filter p) a = none := by
        show (f a).filter p = none
        rw [hf]
        rfl
      rw [@List.filterMap_cons_none α β (fun x => (f x).filter p) a l e,
        List.filterMap_cons_none hf]
      exact ih
    | some b =>
      rw [List.filterMap_cons_some hf]
      by_cases hb : p b = true
      · have e : (fun x => (f x).filter p) a = some b := by
          show (f a).filter p = some b
          rw [hf]
          simp [Option.filter, hb]
        rw [@List.filterMap_cons_some α β (fun x => (f x).filter p) a l b e,
          List.filter_cons_of_pos hb, ih]
      · have e : (fun x => (f x).filter p) a = none := by
          show (f a).filter p = none
          rw [hf]
          simp [Option.filter, hb]
        rw [@List.filterMap_cons_none α β (fun x => (f x).filter p) a l e,
          List.filter_cons_of_neg hb, ih]

/-- The tasks of `detect-state.js` are the tasks of `sync-to-tracker.js` whose id has a
period: the same lines, in the same order, with the same id, trimmed text and completion.
The lines whose id is a bare number are tasks for `sync-to-tracker.js` only. -/
theorem detect_tasks_are_dotted_tracker_tasks (content : Str) :
    (DetectState.parseTasks content).map (fun t => (t.id, t.description, t.completed)) =
      ((Tracker.parseTasks (some content)).filter
        (fun t => t.external_id.contains '.')).map
        (fun t => (t.external_id, t.title, t.status == "done".toList)) := by
  have hD := detect_parseLines_fields (splitLines content)
    { tasks := [], currentGroup := none }
  have hT : (Tracker.parseTasks (some content)).map
      (fun t => (t.external_id, t.title, t.status == "done".toList)) =
      (splitLines content).filterMap Tracker.lineFields := by
    obtain ⟨_, _, hf⟩ := tracker_parseLines_spec (splitLines content)
      { tasks := [], currentGroup := none, order := 0 }
    simpa [Tracker.parseTasks] using hf
  simp only [List.map_nil, List.nil_append] at hD
  have hfun : DetectState.lineFields =
      fun l => (Tracker.lineFields l).filter (fun f => f.1.contains '.') :=
    funext lineFields_agree
  rw [DetectState.parseTasks, hD, hfun, filterMap_filter_option, ← hT, List.filter_map]
  rfl

/-- C10 fails in the code at the line `- [ ] 2 Build endpoint`: `parseTasks` of
`detect-state.js` makes no task of it, and `parseTasks` of `sync-to-tracker.js` makes the
task with id `2`. -/
theorem bare_id_line_parsed_by_tracker_only :
    DetectState.parseTasks "- [ ] 2 Build endpoint".toList = [] ∧
    (Tracker.parseTasks (some "- [ ] 2 Build endpoint".toList)).map
        (fun t => (t.external_id, t.title, t.status)) =
      [("2".toList, "Build endpoint".toList, "todo".toList)] := by
  decide

/-! ### The upsert of sync-to-notion.js -/

theorem mem_queryFrom (taskId : Str) (store : Notion.Store) (first : Nat) (pg : Notion.Page)
    (h : pg ∈ Notion.queryFrom taskId first store) :
    ∃ j, pg.id = first + j ∧ store[j]? = some pg.properties ∧
      pg.properties.taskId = some taskId := by
  induction store generalizing first with
  | nil => exact absurd h (List.not_mem_nil pg)
  | cons a store ih =>
    simp only [Notion.queryFrom] at h
    split at h
    · rename_i ha
      rcases List.mem_cons.mp h with rfl | h
      · exact ⟨0, rfl, by simp, ha⟩
      · obtain ⟨j, hj, hg, ht⟩ := ih (first + 1) h
        exact ⟨j + 1, by omega, by simpa using hg, ht⟩
    · obtain ⟨j, hj, hg, ht⟩ := ih (first + 1) h
      exact ⟨j + 1, by omega, by simpa using hg, ht⟩

theorem queryFrom_mem (taskId : Str) (store : Notion.Store) (first j : Nat)
    (properties : Notion.Properties) (hg : store[j]? = some properties)
    (ht : properties.taskId = some taskId) :
    { id := first + j, properties := properties } ∈ Notion.queryFrom taskId first store := by
  induction store generalizing first j with
  | nil => simp at hg
  | cons a store ih =>
    cases j with
    | zero =>
      simp only [List.getElem?_cons_zero, Option.some.injEq] at hg
      subst hg
      simp [Notion.queryFrom, ht]
    | succ j =>
      simp only [List.getElem?_cons_succ] at hg
      have h := ih (first + 1) j hg
      have e : first + 1 + j = first + (j + 1) := by omega
      rw [e] at h
      simp only [Notion.queryFrom]
      split
      · exact List.mem_cons_of_mem _ h
      · exact h

/-- A record that `findNotionTask` returns is a record of the store with the Task ID asked
and related to the project. -/
theorem findNotionTask_some (projectId taskId : Str) (store : Notion.Store)
    (reply : Notion.QueryReply) (pg : Notion.Page)
    (h : Notion.findNotionTask projectId taskId store reply = some pg) :
    store[pg.id]? = some pg.properties ∧ pg.properties.taskId = some taskId ∧
      Notion.relatedTo projectId pg.properties = true := by
  cases reply with
  | rejected => exact absurd h (by simp [Notion.findNotionTask])
  | noResults => exact absurd h (by simp [Notion.findNotionTask])
  | results =>
    simp only [Notion.findNotionTask] at h
    have hm : pg ∈ (Notion.queryFrom taskId 0 store).filter
        (fun task => Notion.relatedTo projectId task.properties) :=
      List.mem_of_mem_head? (by simp [h])
    obtain ⟨hq, hr⟩ := List.mem_filter.mp hm
    obtain ⟨j, hj, hg, ht⟩ := mem_queryFrom taskId store 0 pg hq
    have e : pg.id = j := by omega
    rw [e]
    exact ⟨hg, ht, hr⟩

theorem findNotionTask_isSome (projectId taskId : Str) (store : Notion.Store)
    (h : ∃ properties ∈ store, properties.taskId = some taskId ∧
      Notion.relatedTo projectId properties = true) :
    (Notion.findNotionTask projectId taskId store .results).isSome = true := by
  obtain ⟨properties, hmem, ht, hr⟩ := h
  obtain ⟨j, hj⟩ := List.getElem?_of_mem hmem
  have hq := queryFrom_mem taskId store 0 j properties hj ht
  have hf : ({ id := 0 + j, properties := properties } : Notion.Page) ∈
      (Notion.queryFrom taskId 0 store).filter
        (fun task => Notion.relatedTo projectId task.properties) :=
    List.mem_filter.mpr ⟨hq, hr⟩
  simp only [Notion.findNotionTask]
  rw [List.head?_isSome]
  intro hnil
  rw [hnil] at hf
  exact absurd hf (List.not_mem_nil _)

theorem taskProperties_taskId (projectId : Str) (existing : Option Notion.Page)
    (task : Notion.Task) :
    (Notion.taskProperties projectId existing task).taskId = some task.id := rfl

theorem taskProperties_related (projectId : Str) (existing : Option Notion.Page)
    (task : Notion.Task) :
    Notion.relatedTo projectId (Notion.taskProperties projectId existing task) = true := by
  cases hu : (match existing with
      | some page => page.properties.project.isSome
      | none => false) with
  | true => simp [Notion.taskProperties, Notion.relatedTo, hu]
  | false => simp [Notion.taskProperties, Notion.relatedTo, hu]

theorem countP_set_same {α : Type} (q : α → Bool) (l : List α) (i : Nat) (old new : α)
    (hg : l[i]? = some old) (hq : q new = q old) :
    (l.set i new).countP q = l.countP q := by
  induction l generalizing i with
  | nil => simp at hg
  | cons a l ih =>
    cases i with
    | zero =>
      simp only [List.getElem?_cons_zero, Option.some.injEq] at hg
      subst hg
      simp [List.set, List.countP_cons, hq]
    | succ i =>
      simp only [List.getElem?_cons_succ] at hg
      simp [List.set, List.countP_cons, ih i hg]

theorem upsertStep_queries (projectId : Str) (reply : Nat → Notion.QueryReply)
    (w : Notion.World) (task : Notion.Task) :
    (Notion.upsertStep projectId reply w task).queries = w.queries + 1 := by
  simp only [Notion.upsertStep]
  cases Notion.findNotionTask projectId task.id w.store (reply w.queries) <;> rfl

/-- After the turn for `task`, whatever came back of its query, a record for its Task ID
and the project is in the store. -/
theorem upsertStep_finds (projectId : Str) (reply : Nat → Notion.QueryReply)
    (w : Notion.World) (task : Notion.Task) :
    ∃ properties ∈ (Notion.upsertStep projectId reply w task).store,
      properties.taskId = some task.id ∧ Notion.relatedTo projectId properties = true := by
  simp only [Notion.upsertStep]
  cases hf : Notion.findNotionTask projectId task.id w.store (reply w.queries) with
  | none =>
    exact ⟨Notion.taskProperties projectId none task, by simp,
      taskProperties_taskId _ _ _, taskProperties_related _ _ _⟩
  | some pg =>
    obtain ⟨hg, _, _⟩ := findNotionTask_some _ _ _ _ _ hf
    have hlt : pg.id < w.store.length := by
      rcases Nat.lt_or_ge pg.id w.store.length with h | h
      · exact h
      · rw [List.getElem?_eq_none h] at hg
        exact absurd hg (by simp)
    refine ⟨_, ?_, taskProperties_taskId _ (some pg) _, taskProperties_related _ (some pg) _⟩
    exact List.getElem?_mem (List.getElem?_set_self hlt)

/-- A turn of the loop keeps every record that could be found findable. -/
theorem upsertStep_keeps (projectId : Str) (reply : Nat → Notion.QueryReply)
    (w : Notion.World) (task : Notion.Task) (taskId : Str)
    (h : ∃ properties ∈ w.store, properties.taskId = some taskId ∧
      Notion.relatedTo projectId properties = true) :
    ∃ properties ∈ (Notion.upsertStep projectId reply w task).store,
      properties.taskId = some taskId ∧ Notion.relatedTo projectId properties = true := by
  obtain ⟨properties, hmem, ht, hr⟩ := h
  simp only [Notion.upsertStep]
  cases hf : Notion.findNotionTask projectId task.id w.store (reply w.queries) with
  | none => exact ⟨properties, by simp [hmem], ht, hr⟩
  | some pg =>
    obtain ⟨hg, hpt, _⟩ := findNotionTask_some _ _ _ _ _ hf
    have hlt : pg.id < w.store.length := by
      rcases Nat.lt_or_ge pg.id w.store.length with h | h
      · exact h
      · rw [List.getElem?_eq_none h] at hg
        exact absurd hg (by simp)
    obtain ⟨j, hj⟩ := List.getElem?_of_mem hmem
    by_cases hji : pg.id = j
    · subst hji
      rw [hg] at hj
      have e : pg.properties = properties := Option.some.inj hj
      have hid : task.id = taskId := by
        rw [e, ht] at hpt
        exact (Option.some.inj hpt).symm
      refine ⟨_, List.getElem?_mem (List.getElem?_set_self hlt), ?_,
        taskProperties_related _ (some pg) _⟩
      rw [taskProperties_taskId, hid]
    · refine ⟨properties, ?_, ht, hr⟩
      apply List.getElem?_mem
      rw [List.getElem?_set_ne hji]
      exact hj

/-- A turn of the loop whose query is answered, for a task whose record can be found, is
an update: the store keeps its length and its numbers of records. -/
theorem upsertStep_update (projectId : Str) (reply : Nat → Notion.QueryReply)
    (w : Notion.World) (task : Notion.Task)
    (hr : reply w.queries = .results)
    (h : ∃ properties ∈ w.store, properties.taskId = some task.id ∧
      Notion.relatedTo projectId properties = true) :
    (Notion.upsertStep projectId reply w task).store.length = w.store.length ∧
      (∃ c, (Notion.upsertStep projectId reply w task).calls = w.calls ++ [c] ∧
        c.isPatch = true) ∧
      ∀ taskId,
        Notion.recordCount projectId taskId (Notion.upsertStep projectId reply w task).store =
          Notion.recordCount projectId taskId w.store := by
  have hsome := findNotionTask_isSome projectId task.id w.store h
  simp only [Notion.upsertStep, hr]
  cases hf : Notion.findNotionTask projectId task.id w.store .results with
  | none =>
    rw [hf] at hsome
    exact absurd hsome (by decide)
  | some pg =>
    obtain ⟨hg, hpt, hpr⟩ := findNotionTask_some _ _ _ _ _ hf
    refine ⟨by simp, ⟨_, rfl, rfl⟩, ?_⟩
    intro taskId
    simp only [Notion.recordCount]
    apply countP_set_same _ _ _ pg.properties _ hg
    rw [taskProperties_taskId, taskProperties_related, hpt, hpr]

theorem upsert_foldl_keeps (projectId : Str) (reply : Nat → Notion.QueryReply)
    (tasks : List Notion.Task) (w : Notion.World) (taskId : Str)
    (h : ∃ properties ∈ w.store, properties.taskId = some taskId ∧
      Notion.relatedTo projectId properties = true) :
    ∃ properties ∈ (tasks.foldl (Notion.upsertStep projectId reply) w).store,
      properties.taskId = some taskId ∧ Notion.relatedTo projectId properties = true := by
  induction tasks generalizing w with
  | nil => exact h
  | cons t tasks ih => exact ih _ (upsertStep_keeps projectId reply w t taskId h)

/-- After the loop, whatever came back of its queries, every task of the list has a
record for its Task ID and the project in the store. -/
theorem upsert_foldl_finds (projectId : Str) (reply : Nat → Notion.QueryReply)
    (tasks : List Notion.Task) (w : Notion.World) :
    ∀ t ∈ tasks, ∃ properties ∈ (tasks.foldl (Notion.upsertStep projectId reply) w).store,
      properties.taskId = some t.id ∧ Notion.relatedTo projectId properties = true := by
  induction tasks generalizing w with
  | nil => exact fun t ht => absurd ht (List.not_mem_nil t)
  | cons a tasks ih =>
    intro t ht
    rcases List.mem_cons.mp ht with rfl | ht
    · exact upsert_foldl_keeps projectId reply tasks _ _ (upsertStep_finds projectId reply w t)
    · exact ih _ t ht

theorem upsert_foldl_updates (projectId : Str) (reply : Nat → Notion.QueryReply)
    (tasks : List Notion.Task) (w : Notion.World)
    (hr : ∀ i, i < tasks.length → reply (w.queries + i) = .results)
    (h : ∀ t ∈ tasks, ∃ properties ∈ w.store, properties.taskId = some t.id ∧
      Notion.relatedTo projectId properties = true) :
    (tasks.foldl (Notion.upsertStep projectId reply) w).store.length = w.store.length ∧
      (∃ cs, (tasks.foldl (Notion.upsertStep projectId reply) w).calls = w.calls ++ cs ∧
        cs.length = tasks.length ∧ ∀ c ∈ cs, c.isPatch = true) ∧
      ∀ taskId, Notion.recordCount projectId taskId
          (tasks.foldl (Notion.upsertStep projectId reply) w).store =
        Notion.recordCount projectId taskId w.store := by
  induction tasks generalizing w with
  | nil =>
    exact ⟨rfl, ⟨[], by simp, rfl, fun c hc => absurd hc (List.not_mem_nil c)⟩, fun _ => rfl⟩
  | cons a tasks ih =>
    have hr0 : reply w.queries = .results := by
      have := hr 0 (by simp)
      simpa using this
    obtain ⟨hlen, ⟨c, hc, hcp⟩, hcount⟩ :=
      upsertStep_update projectId reply w a hr0 (h a (List.mem_cons_self a tasks))
    obtain ⟨ilen, ⟨cs, hcs, hcl, hcsp⟩, icount⟩ := ih (Notion.upsertStep projectId reply w a)
      (by
        intro i hi
        rw [upsertStep_queries]
        have := hr (i + 1) (by simp; omega)
        have e : w.queries + 1 + i = w.queries + (i + 1) := by omega
        rw [e]
        exact this)
      (fun t ht => upsertStep_keeps projectId reply w a t.id
        (h t (List.mem_cons_of_mem a ht)))
    simp only [List.foldl_cons]
    refine ⟨by rw [ilen, hlen], ⟨c :: cs, ?_, by simp [hcl], ?_⟩,
      fun taskId => by rw [icount, hcount]⟩
    · rw [hcs, hc]
      simp
    · intro c' hc'
      rcases List.mem_cons.mp hc' with rfl | hc'
      · exact hcp
      · exact hcsp c' hc'

/-- C7, as the code has it.  With the remote store a list of records, a create adding the
record written and an update replacing the properties of the record with the given id:
for every project id, every list of tasks (equal ids allowed) and every store, after a
first run of `upsertNotionTasks`, whatever came back of its queries, the store holds for
each task of the list a record with its Task ID that is related to the project; and a
second run whose queries are all answered with results creates no record: it sends one
update per task and nothing else, so that the store has as many records, and as many
records for each Task ID related to the project, after two runs as after one. -/
theorem upsertNotionTasks_idempotent (projectId : Str) (tasks : List Notion.Task)
    (store : Notion.Store) (reply1 reply2 : Nat → Notion.QueryReply)
    (hanswered : ∀ i, i < tasks.length → reply2 i = .results) :
    (∀ t ∈ tasks,
      (∃ properties ∈ (Notion.upsertNotionTasks projectId tasks store reply1).store,
        properties.taskId = some t.id ∧ Notion.relatedTo projectId properties = true) ∧
      1 ≤ Notion.recordCount projectId t.id
        (Notion.upsertNotionTasks projectId tasks store reply1).store) ∧
      ((Notion.upsertNotionTasks projectId tasks
          (Notion.upsertNotionTasks projectId tasks store reply1).store reply2).calls.length =
        tasks.length ∧
        ∀ c ∈ (Notion.upsertNotionTasks projectId tasks
          (Notion.upsertNotionTasks projectId tasks store reply1).store reply2).calls,
          c.isPatch = true) ∧
      (Notion.upsertNotionTasks projectId tasks
          (Notion.upsertNotionTasks projectId tasks store reply1).store reply2).store.length =
        (Notion.upsertNotionTasks projectId tasks store reply1).store.length ∧
      ∀ taskId, Notion.recordCount projectId taskId
          (Notion.upsertNotionTasks projectId tasks
            (Notion.upsertNotionTasks projectId tasks store reply1).store reply2).store =
        Notion.recordCount projectId taskId
          (Notion.upsertNotionTasks projectId tasks store reply1).store := by
  have hfind := upsert_foldl_finds projectId reply1 tasks
    { store := store, calls := [], queries := 0 }
  obtain ⟨hlen, ⟨cs, hcs, hcl, hcsp⟩, hcount⟩ := upsert_foldl_updates projectId reply2 tasks
    { store := (Notion.upsertNotionTasks projectId tasks store reply1).store, calls := [],
      queries := 0 } (by simpa using hanswered) hfind
  have hcalls : (Notion.upsertNotionTasks projectId tasks
      (Notion.upsertNotionTasks projectId tasks store reply1).store reply2).calls = cs := by
    have : (Notion.upsertNotionTasks projectId tasks
        (Notion.upsertNotionTasks projectId tasks store reply1).store reply2).calls =
        [] ++ cs := hcs
    simpa using this
  refine ⟨fun t ht => ⟨hfind t ht, ?_⟩, ⟨by rw [hcalls, hcl], by rw [hcalls]; exact hcsp⟩,
    hlen, hcount⟩
  obtain ⟨properties, hmem, hid, hrel⟩ := hfind t ht
  simp only [Notion.recordCount]
  apply List.countP_pos_iff.mpr
  exact ⟨properties, hmem, by simp [hid, hrel]⟩

/-- C7 as the code has it, on a store with an old record under `🎯 Projects` and a list
with the id `1.1` twice, the second query of the first run being rejected: the first
run sends an update, a create and an update, the second run three updates. -/
theorem upsertNotionTasks_idempotent_witness :
    (∀ i, i < [Notion.Task.mk "1.1".toList "a".toList false "G".toList 0,
        Notion.Task.mk "1.2".toList "b".toList true "G".toList 0,
        Notion.Task.mk "1.1".toList "c".toList true "G".toList 0].length →
      (fun _ : Nat => Notion.QueryReply.results) i = .results) ∧
    (Notion.upsertNotionTasks "p".toList
        [Notion.Task.mk "1.1".toList "a".toList false "G".toList 0,
          Notion.Task.mk "1.2".toList "b".toList true "G".toList 0,
          Notion.Task.mk "1.1".toList "c".toList true "G".toList 0]
        [Notion.Properties.mk none none (some (Notion.RelationProperty.mk (some ["p".toList])))
          (some "1.1".toList) none none]
        (fun n : Nat => if n = 1 then .rejected else .results)).calls.map Notion.Call.isPatch =
      [true, false, true] ∧
    ∀ c ∈ (Notion.upsertNotionTasks "p".toList
        [Notion.Task.mk "1.1".toList "a".toList false "G".toList 0,
          Notion.Task.mk "1.2".toList "b".toList true "G".toList 0,
          Notion.Task.mk "1.1".toList "c".toList true "G".toList 0]
        (Notion.upsertNotionTasks "p".toList
          [Notion.Task.mk "1.1".toList "a".toList false "G".toList 0,
            Notion.Task.mk "1.2".toList "b".toList true "G".toList 0,
            Notion.Task.mk "1.1".toList "c".toList true "G".toList 0]
          [Notion.Properties.mk none none
            (some (Notion.RelationProperty.mk (some ["p".toList])))
            (some "1.1".toList) none none]
          (fun n : Nat => if n = 1 then .rejected else .results)).store
        (fun _ : Nat => .results)).calls, c.isPatch = true :=
  ⟨by decide, by decide,
    (upsertNotionTasks_idempotent "p".toList
      [Notion.Task.mk "1.1".toList "a".toList false "G".toList 0,
        Notion.Task.mk "1.2".toList "b".toList true "G".toList 0,
        Notion.Task.mk "1.1".toList "c".toList true "G".toList 0]
      [Notion.Properties.mk none none (some (Notion.RelationProperty.mk (some ["p".toList])))
        (some "1.1".toList) none none]
      (fun n : Nat => if n = 1 then .rejected else .results) (fun _ : Nat => .results)
      (by decide)).2.1.2⟩

/-- C7 as it is written fails when a query of the second run is not answered: on an
empty store and one task, the first run creates the record of the task, and a second
run whose query is rejected, or answered without results, creates a second record with
the same Task ID for the same project. -/
theorem upsertNotionTasks_duplicate_on_failed_query :
    (Notion.upsertNotionTasks "p".toList
        [Notion.Task.mk "1.1".toList "a".toList false "G".toList 0] []
        (fun _ : Nat => .results)).store.length = 1 ∧
    (Notion.upsertNotionTasks "p".toList
        [Notion.Task.mk "1.1".toList "a".toList false "G".toList 0]
        (Notion.upsertNotionTasks "p".toList
          [Notion.Task.mk "1.1".toList "a".toList false "G".toList 0] []
          (fun _ : Nat => .results)).store
        (fun _ : Nat => .rejected)).calls.map Notion.Call.isPatch = [false] ∧
    Notion.recordCount "p".toList "1.1".toList
        (Notion.upsertNotionTasks "p".toList
          [Notion.Task.mk "1.1".toList "a".toList false "G".toList 0]
          (Notion.upsertNotionTasks "p".toList
            [Notion.Task.mk "1.1".toList "a".toList false "G".toList 0] []
            (fun _ : Nat => .results)).store
          (fun _ : Nat => .rejected)).store = 2 ∧
    Notion.recordCount "p".toList "1.1".toList
        (Notion.upsertNotionTasks "p".toList
          [Notion.Task.mk "1.1".toList "a".toList false "G".toList 0]
          (Notion.upsertNotionTasks "p".toList
            [Notion.Task.mk "1.1".toList "a".toList false "G".toList 0] []
            (fun _ : Nat => .results)).store
          (fun _ : Nat => .noResults)).store = 2 := by
  decide

/-! ### The two copies of stage detection -/

/-- The task of `detect-state.js` with the fields of a task of `sync-to-notion.js`. -/
theorem notion_parseStep_eq (st : Notion.ParseState) (line : Str) (ts : List DetectState.Task)
    (h : st.tasks.map (fun t => (t.id, t.description, t.completed, t.group, t.indent)) =
      ts.map (fun t => (t.id, t.description, t.completed, t.group, t.indent))) :
    (Notion.parseStep st line).tasks.map
        (fun t => (t.id, t.description, t.completed, t.group, t.indent)) =
      (DetectState.parseStep { tasks := ts, currentGroup := st.currentGroup } line).tasks.map
        (fun t => (t.id, t.description, t.completed, t.group, t.indent)) ∧
    (Notion.parseStep st line).currentGroup =
      (DetectState.parseStep { tasks := ts, currentGroup := st.currentGroup }
        line).currentGroup := by
  have hre : Notion.reTask = DetectState.reTask := rfl
  have hng : Notion.nextGroup st.currentGroup line =
      DetectState.nextGroup st.currentGroup line := rfl
  simp only [Notion.parseStep, DetectState.parseStep, DetectState.taskOfLine, hre, hng]
  split
  · simp [h]
  · rename_i hno
    split
    · rename_i t heq
      exact absurd heq (by simp)
    · exact ⟨h, rfl⟩

theorem notion_parseLines_eq (lines : List Str) (st : Notion.ParseState)
    (ts : List DetectState.Task)
    (h : st.tasks.map (fun t => (t.id, t.description, t.completed, t.group, t.indent)) =
      ts.map (fun t => (t.id, t.description, t.completed, t.group, t.indent))) :
    (lines.foldl Notion.parseStep st).tasks.map
        (fun t => (t.id, t.description, t.completed, t.group, t.indent)) =
      (DetectState.parseLines { tasks := ts, currentGroup := st.currentGroup } lines).tasks.map
        (fun t => (t.id, t.description, t.completed, t.group, t.indent)) := by
  induction lines generalizing st ts with
  | nil => exact h
  | cons line lines ih =>
    obtain ⟨h1, h2⟩ := notion_parseStep_eq st line ts h
    have hstep : DetectState.parseLines { tasks := ts, currentGroup := st.currentGroup }
        (line :: lines) =
        DetectState.parseLines
          (DetectState.parseStep { tasks := ts, currentGroup := st.currentGroup } line)
          lines := rfl
    rw [hstep, List.foldl_cons]
    have := ih (Notion.parseStep st line)
      (DetectState.parseStep { tasks := ts, currentGroup := st.currentGroup } line).tasks h1
    rw [h2] at this
    exact this

/-- The copy of `parseTasks` in `sync-to-notion.js` returns the tasks of the one in
`detect-state.js`, field by field. -/
theorem notion_parseTasks_eq (content : Str) :
    (Notion.parseTasks content).map
        (fun t => (t.id, t.description, t.completed, t.group, t.indent)) =
      (DetectState.parseTasks content).map
        (fun t => (t.id, t.description, t.completed, t.group, t.indent)) :=
  notion_parseLines_eq (splitLines content) { tasks := [], currentGroup := none } [] rfl

theorem all_eq_all_map_id {α : Type} (f : α → Bool) (l : List α) :
    l.all f = (l.map f).all id := by
  induction l with
  | nil => rfl
  | cons a l ih => simp [List.all_cons, ih]

theorem notion_allDone_eq (content : Str) :
    (Notion.parseTasks content).all (fun t => t.completed) =
      (DetectState.parseTasks content).all (fun t => t.completed) := by
  have h := congrArg (List.map (fun x : Str × Str × Bool × Str × Nat => x.2.2.1))
    (notion_parseTasks_eq content)
  simp only [List.map_map] at h
  have h' : (Notion.parseTasks content).map (fun t => t.completed) =
      (DetectState.parseTasks content).map (fun t => t.completed) := h
  rw [all_eq_all_map_id, all_eq_all_map_id (fun t : DetectState.Task => t.completed), h']

theorem all_completed_iff_filter (ts : List DetectState.Task) :
    ts.all (fun t => t.completed) = true ↔ ts.filter (fun t => !t.completed) = [] := by
  constructor
  · intro h
    rw [List.filter_eq_nil_iff]
    intro t ht
    have := List.all_eq_true.mp h t ht
    simp [this]
  · intro h
    exact List.all_eq_true.mpr (filter_incomplete_nil ts h)

/-- C15.  For every spec folder, `detectState` of `sync-to-notion.js` and `detectState`
of `detect-state.js` give the same `projectStatus`; and `currentAgent` of the first is
`nextAgent` of the second, except when the four artifacts exist and no parsed task is
incomplete, where the first gives `implementer` and the second `complete`. -/
theorem stage_detection_copies (f : DetectState.SpecFolder) :
    (Notion.detectState f).projectStatus = (DetectState.detectState f).projectStatus ∧
      (if f.hasRawIdea = true ∧ f.hasRequirements = true ∧ f.hasSpec = true ∧
          f.hasTasks = true ∧
          (DetectState.parseTasks f.tasksContent).all (fun t => t.completed) = true then
        (Notion.detectState f).currentAgent = some "implementer".toList ∧
          (DetectState.detectState f).nextAgent = some "complete".toList
      else (Notion.detectState f).currentAgent = (DetectState.detectState f).nextAgent) := by
  obtain ⟨idea, req, spec, tasks, content⟩ := f
  cases idea
  · exact ⟨rfl, by simp; rfl⟩
  cases req
  · exact ⟨rfl, by simp; rfl⟩
  cases spec
  · exact ⟨rfl, by simp; rfl⟩
  cases tasks
  · exact ⟨rfl, by simp; rfl⟩
  have hN : Notion.detectState
      { hasRawIdea := true, hasRequirements := true, hasSpec := true, hasTasks := true,
        tasksContent := content } =
      { rawIdea := true, requirements := true, spec := true, tasksFile := true,
        currentAgent := some "implementer".toList,
        projectStatus :=
          if (DetectState.parseTasks content).all (fun t => t.completed) = true then
            some "Done".toList
          else some "In Progress".toList,
        tasks := Notion.parseTasks content } := by
    rw [← notion_allDone_eq]
    rfl
  rw [hN]
  simp only [DetectState.detectState, true_and]
  cases hf : (DetectState.parseTasks content).filter (fun t => !t.completed) with
  | nil =>
    have hall := (all_completed_iff_filter _).mpr hf
    simp only [hall, if_true]
    refine ⟨rfl, ?_⟩
    rfl
  | cons t rest =>
    have hall : (DetectState.parseTasks content).all (fun t => t.completed) = false := by
      cases h : (DetectState.parseTasks content).all (fun t => t.completed) with
      | false => rfl
      | true =>
        have := (all_completed_iff_filter _).mp h
        rw [hf] at this
        exact absurd this (by simp)
    simp only [hall, Bool.false_eq_true, if_false]
    refine ⟨rfl, ?_⟩
    rfl

/-- C15 on a tasks document without a task and on one whose tasks are all done: both
copies say `Done`, the copy of `sync-to-notion.js` with the agent `implementer` and the
one of `detect-state.js` with `complete`. -/
theorem stage_detection_copies_done :
    ((Notion.detectState
          { hasRawIdea := true, hasRequirements := true, hasSpec := true, hasTasks := true,
            tasksContent := "No task here".toList }).projectStatus,
      (Notion.detectState
          { hasRawIdea := true, hasRequirements := true, hasSpec := true, hasTasks := true,
            tasksContent := "No task here".toList }).currentAgent,
      (DetectState.detectState
          { hasRawIdea := true, hasRequirements := true, hasSpec := true, hasTasks := true,
            tasksContent := "No task here".toList }).projectStatus,
      (DetectState.detectState
          { hasRawIdea := true, hasRequirements := true, hasSpec := true, hasTasks := true,
            tasksContent := "No task here".toList }).nextAgent) =
      (some "Done".toList, some "implementer".toList, some "Done".toList,
        some "complete".toList) ∧
    ((Notion.detectState
          { hasRawIdea := true, hasRequirements := true, hasSpec := true, hasTasks := true,
            tasksContent := "- [x] 1.1 a".toList }).projectStatus,
      (Notion.detectState
          { hasRawIdea := true, hasRequirements := true, hasSpec := true, hasTasks := true,
            tasksContent := "- [x] 1.1 a".toList }).currentAgent,
      (DetectState.detectState
          { hasRawIdea := true, hasRequirements := true, hasSpec := true, hasTasks := true,
            tasksContent := "- [x] 1.1 a".toList }).projectStatus,
      (DetectState.detectState
          { hasRawIdea := true, hasRequirements := true, hasSpec := true, hasTasks := true,
            tasksContent := "- [x] 1.1 a".toList }).nextAgent) =
      (some "Done".toList, some "implementer".toList, some "Done".toList,
        some "complete".toList) := by
  decide

/-! ### The claims the code breaks -/

/-- C11 fails in the code on `## Overview\n\n## Goals\ntext`: the `\n+` of the pattern
takes the blank line, the lazy body starts at `## Goals` and runs to the end, and the
description `extractSpecMetadata` returns is the heading `## Goals`, not the first line of
the raw idea. -/
theorem overview_empty_body_takes_next_heading :
    (Tracker.extractSpecMetadata "my-spec".toList
        (some "## Overview\n\n## Goals\ntext".toList)
        (some "The idea".toList)).description = "## Goals".toList ∧
    Tracker.reOverview.search "## Overview\n\n## Goals\ntext".toList =
      some ["## Goals\ntext".toList] := by
  decide

/-- The description `extractSpecMetadata` returns where the Overview section has a
body, where its body is blank and it ends the document, and where there is no
specification or no raw idea. -/
theorem extractSpecMetadata_cases :
    (Tracker.extractSpecMetadata "my-spec".toList
        (some "# Title\n\n## overview\nFirst line\nsecond\n## Goals\ntext".toList)
        (some "The idea".toList)) =
      { title := "Title".toList, description := "First line".toList,
        externalId := "my-spec".toList } ∧
    (Tracker.extractSpecMetadata "my-spec".toList (some "# T\n## Overview\n   \n".toList)
        (some "\n  \nThe idea\nmore".toList)).description = "The idea".toList ∧
    (Tracker.extractSpecMetadata "my-spec".toList none
        (some "\nThe idea".toList)).description = "The idea".toList ∧
    (Tracker.extractSpecMetadata "my-spec".toList none none).description = [] := by
  decide

/-- C12 fails in the code when no record is found: for every project and task, on the
empty store, the page `upsertNotionTasks` creates has no `Project` and carries the
relation to the project under `🎯 Projects`, while `setup-notion-properties.js` gives a
tasks database that has neither relation the property `Project` alone. -/
theorem created_page_relation_under_projects (projectId : Str) (task : Notion.Task)
    (reply : Nat → Notion.QueryReply) :
    (Notion.upsertNotionTasks projectId [task] [] reply).calls =
        [.post (Notion.taskProperties projectId none task)] ∧
      (Notion.taskProperties projectId none task).project = none ∧
      (Notion.taskProperties projectId none task).projects =
        some { relation := some [projectId] } ∧
      Notion.setupRelationProperties false false = (true, false) := by
  refine ⟨?_, rfl, rfl, rfl⟩
  have hnone : Notion.findNotionTask projectId task.id [] (reply 0) = none := by
    cases reply 0 <;> rfl
  simp [Notion.upsertNotionTasks, Notion.upsertStep, hnone]

/-- The relation of an update is written under `Project` when the record found has that
property and under `🎯 Projects` otherwise. -/
theorem updated_page_relation (projectId : Str) (page : Notion.Page) (task : Notion.Task) :
    (Notion.taskProperties projectId (some page) task).project =
        (if page.properties.project.isSome then some { relation := some [projectId] }
          else none) ∧
      (Notion.taskProperties projectId (some page) task).projects =
        (if page.properties.project.isSome then none
          else some { relation := some [projectId] }) :=
  ⟨rfl, rfl⟩

/-- C13 fails in the code on two of the lines it names: between the header `### A` and a
task, the line `#### Setup` makes the group of the task `# Setup`, and the line
`see #### Task Group 1: x` makes it that whole line, where the document without the line
gives the group `A`. -/
theorem unrecognised_lines_change_group :
    (DetectState.parseTasks "### A\n- [ ] 1.1 a".toList).map (fun t => t.group) =
      ["A".toList] ∧
    (DetectState.parseTasks "### A\n#### Setup\n- [ ] 1.1 a".toList).map (fun t => t.group) =
      ["# Setup".toList] ∧
    (DetectState.parseTasks "### A\nsee #### Task Group 1: x\n- [ ] 1.1 a".toList).map
        (fun t => t.group) = ["see #### Task Group 1: x".toList] := by
  decide

/-- The part of C13 that holds: a line that does not start with `###`, in which the
pattern of the Task Group header is found nowhere, and that the task pattern does not
match, is inert; the document without it has the same tasks. -/
theorem inert_line_deleted (pre post : List Str) (line : Str)
    (hpre : ∀ m ∈ pre, ∀ x ∈ m, x ≠ '\n') (hpost : ∀ m ∈ post, ∀ x ∈ m, x ≠ '\n')
    (hline : ∀ x ∈ line, x ≠ '\n')
    (h3 : startsWith line "###".toList = false)
    (hg : DetectState.reTaskGroup.test line = false)
    (ht : DetectState.reTask.matchStart line = none) :
    DetectState.parseTasks (joinLines (pre ++ line :: post)) =
      DetectState.parseTasks (joinLines (pre ++ post)) := by
  have hstep : ∀ st : DetectState.ParseState, DetectState.parseStep st line = st := by
    intro st
    simp only [DetectState.parseStep, DetectState.nextGroup, DetectState.taskOfLine, h3, hg, ht]
    simp
  rw [detect_parseTasks_joinLines, detect_parseTasks_joinLines, detect_parseLines_append,
    detect_parseLines_append]
  · have hcons : ∀ st : DetectState.ParseState,
        DetectState.parseLines st (line :: post) =
          DetectState.parseLines (DetectState.parseStep st line) post := fun st => rfl
    rw [hcons, hstep]
  · intro m hm
    rcases List.mem_append.mp hm with hm | hm
    · exact hpre m hm
    · exact hpost m hm
  · intro m hm
    rcases List.mem_append.mp hm with hm | hm
    · exact hpre m hm
    · rcases List.mem_cons.mp hm with rfl | hm
      · exact hline
      · exact hpost m hm

/-- The lines with a malformed checkbox and the level-2 header that C13 names are inert:
the document with them has the tasks of the document without them. -/
theorem malformed_lines_inert :
    DetectState.parseTasks
        ("### A\n- [X] 1.1 a\n- [] 1.1 a\n- [xx] 1.1 a\n## Notes\n- [ ] 1.2 b").toList =
      DetectState.parseTasks "### A\n- [ ] 1.2 b".toList := by
  decide

/-- C14 fails in the code on an upper-case `X`: the line `- [X] TEST-1: t` is a test, by
the `i` flag of the pattern, and its status is `pending`, by the comparison of the box
with the lower-case `x`. -/
theorem upper_case_box_test_is_pending :
    Tracker.parseTests (some "- [X] TEST-1: t".toList) =
      [{ external_id := "TEST-1".toList, title := "t".toList,
         description := "Test from General".toList, status := "pending".toList,
         test_type := "manual".toList }] := by
  decide

/-- The tests `parseTests` makes of lines with a lower-case `x`, a space, ids in the
three forms and in lower case, under a section of unit tests. -/
theorem parseTests_cases :
    (Tracker.parseTests
        (some "## Unit tests\n- [x] tc-2: u \n- [ ] 1.2: v\n-[x]TEST-3:w".toList)).map
        (fun t => (t.external_id, t.title, t.status, t.test_type)) =
      [("tc-2".toList, "u".toList, "passed".toList, "unit".toList),
       ("1.2".toList, "v".toList, "pending".toList, "unit".toList),
       ("TEST-3".toList, "w".toList, "passed".toList, "unit".toList)] := by
  decide

end AgentOS
